import Mathlib

/-!
# Verification of the shadow claim core

A shallow embedding, over byte lists (`List Nat`, each entry a byte value),
of the `shadow-proof-core` crate (packed journal codec, RLP decoder,
Merkle-Patricia-Trie account-proof verifier, block-header parser, claim
evaluator and its hash derivations) and of the server's proof job queue
(`packages/server/src/prover/queue.rs`), together with theorems checking the
specification's claims against this embedding.

Machine integers are modelled as `Nat` with explicit bounds or reductions
where overflow matters (`u128` checked addition, `usize` length arithmetic);
`[u8; N]` fields become byte lists with well-formedness hypotheses.
-/

set_option maxRecDepth 40000

deriving instance DecidableEq for Except

namespace Shadow

abbrev Bytes := List Nat

def u32Mod : Nat := 2 ^ 32
def u64Mod : Nat := 2 ^ 64
def u128Mod : Nat := 2 ^ 128

/-- Little-endian bytes of a value, fixed width (`to_le_bytes`). -/
def leBytes : Nat → Nat → Bytes
  | 0, _ => []
  | n + 1, v => v % 256 :: leBytes n (v / 256)

/-- Value of a little-endian byte list (`from_le_bytes`). -/
def fromLeBytes (l : Bytes) : Nat := l.foldr (fun b acc => acc * 256 + b) 0

/-- Value of a big-endian byte list. -/
def beVal (l : Bytes) : Nat := l.foldl (fun acc b => acc * 256 + b) 0

/-- Big-endian bytes of a value, fixed width (`to_be_bytes`). -/
def beBytes (n v : Nat) : Bytes := (leBytes n v).reverse

/-- The slice `&input[a..b]` of a byte buffer (meaningful when `a ≤ b ≤ length`). -/
def listSlice (l : Bytes) (a b : Nat) : Bytes := (l.take b).drop a

/-- `buf[start..start + src.len()].copy_from_slice(src)` (meaningful when the
    source fits inside the buffer). -/
def writeSlice (buf : Bytes) (start : Nat) (src : Bytes) : Bytes :=
  buf.take start ++ src ++ buf.drop (start + src.length)

/-- All entries are byte values. -/
def wfBytes (l : Bytes) : Prop := ∀ b ∈ l, b < 256

instance wfBytes_decidable (l : Bytes) : Decidable (wfBytes l) := by
  unfold wfBytes; infer_instance

/-! ## SHA-256 (the `sha2` crate as used by `sha256` in lib.rs) -/

/-- The 64 SHA-256 round constants of FIPS 180-4 (decimal spelling). -/
def shaK : List Nat :=
  [1116352408, 1899447441, 3049323471, 3921009573, 961987163, 1508970993,
   2453635748, 2870763221, 3624381080, 310598401, 607225278, 1426881987,
   1925078388, 2162078206, 2614888103, 3248222580, 3835390401, 4022224774,
   264347078, 604807628, 770255983, 1249150122, 1555081692, 1996064986,
   2554220882, 2821834349, 2952996808, 3210313671, 3336571891, 3584528711,
   113926993, 338241895, 666307205, 773529912, 1294757372, 1396182291,
   1695183700, 1986661051, 2177026350, 2456956037, 2730485921, 2820302411,
   3259730800, 3345764771, 3516065817, 3600352804, 4094571909, 275423344,
   430227734, 506948616, 659060556, 883997877, 958139571, 1322822218,
   1537002063, 1747873779, 1955562222, 2024104815, 2227730452, 2361852424,
   2428436474, 2756734187, 3204031479, 3329325298]

/-- The eight SHA-256 initial hash values of FIPS 180-4 (decimal spelling). -/
def shaH0 : List Nat :=
  [1779033703, 3144134277, 1013904242, 2773480762,
   1359893119, 2600822924, 528734635, 1541459225]

def rotr32 (x n : Nat) : Nat := ((x >>> n) ||| (x <<< (32 - n))) % u32Mod

def add32 (a b : Nat) : Nat := (a + b) % u32Mod

def sigma0 (x : Nat) : Nat := (rotr32 x 7) ^^^ (rotr32 x 18) ^^^ (x >>> 3)
def sigma1 (x : Nat) : Nat := (rotr32 x 17) ^^^ (rotr32 x 19) ^^^ (x >>> 10)
def bigSigma0 (x : Nat) : Nat := (rotr32 x 2) ^^^ (rotr32 x 13) ^^^ (rotr32 x 22)
def bigSigma1 (x : Nat) : Nat := (rotr32 x 6) ^^^ (rotr32 x 11) ^^^ (rotr32 x 25)

/-- Expand the 16 block words to the 64 schedule words. -/
def shaSchedule (w : List Nat) : List Nat :=
  (List.range 48).foldl
    (fun acc _ =>
      let n := acc.length
      let x := add32 (add32 (sigma1 (acc.getD (n - 2) 0)) (acc.getD (n - 7) 0))
                     (add32 (sigma0 (acc.getD (n - 15) 0)) (acc.getD (n - 16) 0))
      acc ++ [x]) w

def shaRound (regs : List Nat) (kw : Nat × Nat) : List Nat :=
  let a := regs.getD 0 0
  let b := regs.getD 1 0
  let c := regs.getD 2 0
  let d := regs.getD 3 0
  let e := regs.getD 4 0
  let f := regs.getD 5 0
  let g := regs.getD 6 0
  let h := regs.getD 7 0
  let ch := (e &&& f) ^^^ ((e ^^^ (u32Mod - 1)) &&& g)
  let maj := (a &&& b) ^^^ (a &&& c) ^^^ (b &&& c)
  let t1 := add32 (add32 (add32 h (bigSigma1 e)) (add32 ch kw.1)) kw.2
  let t2 := add32 (bigSigma0 a) maj
  [add32 t1 t2, a, b, c, add32 d t1, e, f, g]

def shaCompress (h : List Nat) (block : Bytes) : List Nat :=
  let w0 := (List.range 16).map (fun i => beVal ((block.drop (4 * i)).take 4))
  let w := shaSchedule w0
  let regs := (shaK.zip w).foldl shaRound h
  (h.zip regs).map (fun p => add32 p.1 p.2)

def shaBlocks : Nat → List Nat → Bytes → List Nat
  | 0, h, _ => h
  | _ + 1, h, [] => h
  | fuel + 1, h, bytes => shaBlocks fuel (shaCompress h (bytes.take 64)) (bytes.drop 64)

def shaPad (msg : Bytes) : Bytes :=
  let padZeros := (64 - ((msg.length + 9) % 64)) % 64
  msg ++ 0x80 :: List.replicate padZeros 0 ++ beBytes 8 (8 * msg.length)

/-- SHA-256 of a byte string. -/
def sha256 (msg : Bytes) : Bytes :=
  let padded := shaPad msg
  let h := shaBlocks (padded.length + 1) shaH0 padded
  h.flatMap (fun w => beBytes 4 w)

/-! ## Keccak-256 (the `tiny_keccak` crate as used by `keccak256` in lib.rs) -/

/-- The 24 Keccak-f[1600] round constants (decimal spelling). -/
def keccakRC : List Nat :=
  [1, 32898, 9223372036854808714,
   9223372039002292224, 32907, 2147483649,
   9223372039002292353, 9223372036854808585, 138,
   136, 2147516425, 2147483658,
   2147516555, 9223372036854775947, 9223372036854808713,
   9223372036854808579, 9223372036854808578, 9223372036854775936,
   32778, 9223372039002259466, 9223372039002292353,
   9223372036854808704, 2147483649, 9223372039002292232]

/-- The Keccak rho rotation offsets, flattened in lane order `x + 5 * y`,
    one row (`y` fixed) per sublist. -/
def rhoOffsets : List Nat :=
  [0, 1, 62, 28, 27] ++ [36, 44, 6, 55, 20] ++ [3, 10, 43, 25, 39] ++
    [41, 45, 15, 21, 8] ++ [18, 2, 61, 56, 14]

def rotl64 (v n : Nat) : Nat := ((v <<< n) % u64Mod) ||| (v >>> (64 - n))

def not64 (v : Nat) : Nat := v ^^^ (u64Mod - 1)

def theta (s : List Nat) : List Nat :=
  let c := (List.range 5).map (fun x =>
    (s.getD x 0) ^^^ (s.getD (x + 5) 0) ^^^ (s.getD (x + 10) 0) ^^^
    (s.getD (x + 15) 0) ^^^ (s.getD (x + 20) 0))
  let d := (List.range 5).map (fun x =>
    (c.getD ((x + 4) % 5) 0) ^^^ rotl64 (c.getD ((x + 1) % 5) 0) 1)
  (List.range 25).map (fun i => (s.getD i 0) ^^^ (d.getD (i % 5) 0))

def rhoPi (s : List Nat) : List Nat :=
  (List.range 25).map (fun i =>
    let x := (3 * (i / 5) + i % 5) % 5
    let y := i % 5
    let src := x + 5 * y
    rotl64 (s.getD src 0) (rhoOffsets.getD src 0))

def chi (s : List Nat) : List Nat :=
  (List.range 25).map (fun i =>
    let x := i % 5
    let y := i / 5
    (s.getD i 0) ^^^ ((not64 (s.getD ((x + 1) % 5 + 5 * y) 0)) &&& (s.getD ((x + 2) % 5 + 5 * y) 0)))

def keccakRound (s : List Nat) (rc : Nat) : List Nat :=
  let s' := chi (rhoPi (theta s))
  ((s'.getD 0 0) ^^^ rc) :: s'.drop 1

def keccakF (s : List Nat) : List Nat := keccakRC.foldl keccakRound s

/-- Original Keccak padding (`tiny_keccak`'s `Keccak::v256`, delimiter 0x01). -/
def keccakPad (msg : Bytes) : Bytes :=
  let q := 136 - msg.length % 136
  if q = 1 then msg ++ [0x81]
  else msg ++ 0x01 :: List.replicate (q - 2) 0 ++ [0x80]

def absorbBlock (s : List Nat) (block : Bytes) : List Nat :=
  let words := (List.range 17).map (fun i => fromLeBytes ((block.drop (8 * i)).take 8))
  keccakF (s.zipWith (fun lane w => lane ^^^ w) (words ++ List.replicate 8 0))

def keccakAbsorb : Nat → List Nat → Bytes → List Nat
  | 0, s, _ => s
  | _ + 1, s, [] => s
  | fuel + 1, s, bytes => keccakAbsorb fuel (absorbBlock s (bytes.take 136)) (bytes.drop 136)

/-- Keccak-256 of a byte string. -/
def keccak256 (msg : Bytes) : Bytes :=
  let padded := keccakPad msg
  let s := keccakAbsorb (padded.length + 1) (List.replicate 25 0) padded
  (List.range 4).flatMap (fun i => leBytes 8 (s.getD i 0))

/-! ## Error enum (`ClaimValidationError` in lib.rs) -/

inductive ClaimValidationError where
  | InvalidNoteCount
  | InvalidNoteIndex
  | InvalidInputLengths
  | InactiveNoteHasZeroAmount
  | SelectedAmountMismatch
  | RecipientHashMismatch
  | TotalAmountExceeded
  | InvalidProofDepth
  | ProofShapeMismatch
  | ProofNodeTooLarge
  | InvalidNodeReference
  | InvalidRlpNode
  | InvalidTrieNode
  | InvalidTriePath
  | MissingAccountValue
  | InvalidAccountValue
  | InsufficientAccountBalance
  | InvalidBlockHeaderHash
  | InvalidBlockHeaderShape
  | BlockNumberMismatch
deriving DecidableEq, Repr

/-! ## RLP decoder (`decode_rlp_item`, `read_be_usize`,
`decode_rlp_list_payload_items` in lib.rs).

`usize` is modelled as `Nat`: the host and the theorems below only deal with
length arithmetic that stays strictly below `2 ^ 64`, where the two agree;
general statements carry that bound as an explicit hypothesis. -/

structure RlpItem where
  is_list : Bool
  payload_offset : Nat
  payload_len : Nat
  total_len : Nat
deriving DecidableEq, Repr

/-- `read_be_usize`: big-endian usize from 1..=8 bytes, with the source's
    checked-arithmetic overflow tests (`usize` is 8 bytes on the host). -/
def readBeChecked : Bytes → Nat → Except ClaimValidationError Nat
  | [], acc => .ok acc
  | b :: rest, acc =>
    if acc * 256 < u64Mod then
      if acc * 256 + b < u64Mod then readBeChecked rest (acc * 256 + b)
      else .error .InvalidRlpNode
    else .error .InvalidRlpNode

def read_be_usize (input : Bytes) : Except ClaimValidationError Nat :=
  if input.length = 0 ∨ input.length > 8 then .error .InvalidRlpNode
  else readBeChecked input 0

/-- `decode_rlp_item input offset`.  The source's local bindings
    (`prefix = input[offset]`, `len`, `len_of_len`, `len_offset = offset + 1`,
    `payload_offset`) are inlined. -/
def decode_rlp_item (input : Bytes) (offset : Nat) : Except ClaimValidationError RlpItem :=
  if offset ≥ input.length then .error .InvalidRlpNode
  else if input.getD offset 0 ≤ 0x7f then
    .ok ⟨false, offset, 1, 1⟩
  else if input.getD offset 0 ≤ 0xb7 then
    if offset + 1 + (input.getD offset 0 - 0x80) > input.length then .error .InvalidRlpNode
    else .ok ⟨false, offset + 1, input.getD offset 0 - 0x80,
      1 + (input.getD offset 0 - 0x80)⟩
  else if input.getD offset 0 ≤ 0xbf then
    if offset + 1 + (input.getD offset 0 - 0xb7) > input.length then .error .InvalidRlpNode
    else
      match read_be_usize (listSlice input (offset + 1)
          (offset + 1 + (input.getD offset 0 - 0xb7))) with
      | .error e => .error e
      | .ok len =>
        if offset + 1 + (input.getD offset 0 - 0xb7) + len > input.length then
          .error .InvalidRlpNode
        else .ok ⟨false, offset + 1 + (input.getD offset 0 - 0xb7), len,
          1 + (input.getD offset 0 - 0xb7) + len⟩
  else if input.getD offset 0 ≤ 0xf7 then
    if offset + 1 + (input.getD offset 0 - 0xc0) > input.length then .error .InvalidRlpNode
    else .ok ⟨true, offset + 1, input.getD offset 0 - 0xc0,
      1 + (input.getD offset 0 - 0xc0)⟩
  else
    if offset + 1 + (input.getD offset 0 - 0xf7) > input.length then .error .InvalidRlpNode
    else
      match read_be_usize (listSlice input (offset + 1)
          (offset + 1 + (input.getD offset 0 - 0xf7))) with
      | .error e => .error e
      | .ok len =>
        if offset + 1 + (input.getD offset 0 - 0xf7) + len > input.length then
          .error .InvalidRlpNode
        else .ok ⟨true, offset + 1 + (input.getD offset 0 - 0xf7), len,
          1 + (input.getD offset 0 - 0xf7) + len⟩

/-- The `while cursor < end` scan of `decode_rlp_list_payload_items`, with a
    fuel argument for termination: each successful step consumes at least one
    byte (`total_len ≥ 1`), so `input.length + 1` fuel never runs out on the
    real control flow and the fuel-exhaustion branch is unreachable there. -/
def rlpItems (input : Bytes) : Nat → Nat → Nat → Except ClaimValidationError (List Bytes)
  | 0, cursor, endPos =>
    if cursor < endPos then .error .InvalidRlpNode
    else if cursor = endPos then .ok [] else .error .InvalidRlpNode
  | fuel + 1, cursor, endPos =>
    if cursor < endPos then
      match decode_rlp_item input cursor with
      | .error e => .error e
      | .ok item =>
        if item.is_list then .error .InvalidRlpNode
        else if item.payload_offset + item.payload_len > input.length then
          .error .InvalidRlpNode
        else
          match rlpItems input fuel (cursor + item.total_len) endPos with
          | .error e => .error e
          | .ok rest =>
            .ok (listSlice input item.payload_offset
              (item.payload_offset + item.payload_len) :: rest)
    else if cursor = endPos then .ok [] else .error .InvalidRlpNode

/-- `decode_rlp_list_payload_items`: decode the outer item, require a list
    spanning the whole input, return the payload slices of its (non-list)
    children. -/
def decode_rlp_list_payload_items (input : Bytes) : Except ClaimValidationError (List Bytes) :=
  match decode_rlp_item input 0 with
  | .error e => .error e
  | .ok top =>
    if ¬top.is_list ∨ top.total_len ≠ input.length then .error .InvalidRlpNode
    else rlpItems input (input.length + 1) top.payload_offset (top.payload_offset + top.payload_len)

/-! ## RLP encoders (the `rlp_encode_bytes` / `rlp_encode_list` /
`usize_to_be_bytes` helpers of lib.rs). -/

/-- Minimal little-endian base-256 digits (low byte first); fuel-driven, with
    16 digits enough for any length that fits in 128 bits. -/
def leDigits : Nat → Nat → Bytes
  | 0, _ => []
  | fuel + 1, v => if v = 0 then [] else v % 256 :: leDigits fuel (v / 256)

/-- `usize_to_be_bytes`: minimal big-endian bytes, `[0]` for zero. -/
def usize_to_be_bytes (value : Nat) : Bytes :=
  if value = 0 then [0] else (leDigits 16 value).reverse

/-- `rlp_encode_bytes` (test helper in lib.rs). -/
def rlp_encode_bytes (raw : Bytes) : Bytes :=
  if raw.length = 1 ∧ raw.getD 0 0 ≤ 0x7f then raw
  else if raw.length ≤ 55 then (0x80 + raw.length) :: raw
  else
    let len_bytes := usize_to_be_bytes raw.length
    (0xb7 + len_bytes.length) :: len_bytes ++ raw

/-- `rlp_encode_list` (test helper in lib.rs). -/
def rlp_encode_list (items : List Bytes) : Bytes :=
  let payload := items.flatten
  if payload.length ≤ 55 then (0xc0 + payload.length) :: payload
  else
    let len_bytes := usize_to_be_bytes payload.length
    (0xf7 + len_bytes.length) :: len_bytes ++ payload

/-! ## Merkle-Patricia-Trie account-proof verifier -/

/-- `hash_to_nibbles`: 32-byte hash to 64 nibbles, high nibble first. -/
def hash_to_nibbles (hash : Bytes) : List Nat :=
  hash.flatMap (fun b => [b / 16, b % 16])

/-- `decode_compact_nibbles`: hex-prefix decoding of an extension/leaf path
    (`flag = encoded[0] >> 4`, leaf bit 0x2, odd bit 0x1). -/
def decode_compact_nibbles (encoded : Bytes) :
    Except ClaimValidationError (Bool × List Nat) :=
  match encoded with
  | [] => .error .InvalidTriePath
  | b0 :: rest =>
    if b0 / 16 > 3 then .error .InvalidTriePath
    else
      .ok (b0 / 16 &&& 0x2 != 0,
        (if b0 / 16 &&& 0x1 != 0 then [b0 % 16] else []) ++
          rest.flatMap (fun b => [b / 16, b % 16]))

/-- `nibbles_to_compact_path` (test helper in lib.rs). The byte of a nibble
    pair is `(hi << 4) | (lo & 0x0f)` on `u8`, i.e. `(hi % 16) * 16 + lo % 16`.
    The source only ever chunks even-length nibble runs, so the odd tail case
    is unreachable and mapped to the empty contribution. -/
def nibblePairs : List Nat → Bytes
  | [] => []
  | [_] => []
  | hi :: lo :: rest => ((hi % 16) * 16 + lo % 16) :: nibblePairs rest

def nibbles_to_compact_path (nibbles : List Nat) (is_leaf : Bool) : Bytes :=
  let is_odd := nibbles.length % 2 = 1
  let flags := (if is_leaf then 0x2 else 0x0) + (if is_odd then 0x1 else 0x0)
  if is_odd then (flags * 16 + (nibbles.getD 0 0) % 16) :: nibblePairs (nibbles.drop 1)
  else (flags * 16) :: nibblePairs nibbles

/-- `node_matches_reference`: a 32-byte reference is a keccak digest, a
    shorter non-empty one an inlined child compared literally. -/
def node_matches_reference (node reference : Bytes) : Bool :=
  if reference.length = 0 then false
  else if reference.length = 32 then keccak256 node = reference
  else node = reference

/-- The per-node reference check of the traversal loop: at depth 0 the node
    must hash to the state root; deeper nodes must match the parent's child
    reference (an absent reference is an invalid path). -/
def nodeRefCheck (node stateRoot : Bytes) (depth : Nat) (expectedRef : Option Bytes) :
    Except ClaimValidationError Unit :=
  if depth = 0 then
    if keccak256 node = stateRoot then .ok () else .error .InvalidNodeReference
  else
    match expectedRef with
    | none => .error .InvalidTriePath
    | some r => if node_matches_reference node r then .ok () else .error .InvalidNodeReference

/-- The `for (depth, node)` loop of `verify_account_proof_and_get_balance`,
    returning the account RLP on success.  `total` is `proof_nodes.len()`;
    running out of nodes without an account value is the post-loop
    `account_rlp.ok_or(MissingAccountValue)`. -/
def verifyLoop (keyNibbles : List Nat) (stateRoot : Bytes) (total : Nat) :
    List Bytes → Nat → Nat → Option Bytes → Except ClaimValidationError Bytes
  | [], _, _, _ => .error .MissingAccountValue
  | node :: rest, depth, keyIndex, expectedRef =>
    match nodeRefCheck node stateRoot depth expectedRef with
    | .error e => .error e
    | .ok () =>
      match decode_rlp_list_payload_items node with
      | .error e => .error e
      | .ok elements =>
        if elements.length = 17 then
          if keyIndex = keyNibbles.length then
            if elements.getD 16 [] = [] then .error .MissingAccountValue
            else if depth + 1 ≠ total then .error .InvalidTriePath
            else .ok (elements.getD 16 [])
          else
            if elements.getD (keyNibbles.getD keyIndex 0) [] = [] then
              .error .MissingAccountValue
            else
              verifyLoop keyNibbles stateRoot total rest (depth + 1) (keyIndex + 1)
                (some (elements.getD (keyNibbles.getD keyIndex 0) []))
        else if elements.length = 2 then
          match decode_compact_nibbles (elements.getD 0 []) with
          | .error e => .error e
          | .ok (is_leaf, path_nibbles) =>
            if keyIndex + path_nibbles.length > keyNibbles.length then .error .InvalidTriePath
            else if listSlice keyNibbles keyIndex (keyIndex + path_nibbles.length) ≠
                path_nibbles then
              .error .InvalidTriePath
            else if is_leaf then
              if keyIndex + path_nibbles.length ≠ keyNibbles.length then
                .error .InvalidTriePath
              else if elements.getD 1 [] = [] then .error .MissingAccountValue
              else if depth + 1 ≠ total then .error .InvalidTriePath
              else .ok (elements.getD 1 [])
            else
              if elements.getD 1 [] = [] then .error .InvalidTriePath
              else
                verifyLoop keyNibbles stateRoot total rest (depth + 1)
                  (keyIndex + path_nibbles.length) (some (elements.getD 1 []))
        else .error .InvalidTrieNode

/-- `decode_account_balance`: 4-field account RLP, balance payload of at most
    32 bytes, right-aligned into a left-zero-padded 32-byte buffer. -/
def decode_account_balance (account_rlp : Bytes) : Except ClaimValidationError Bytes :=
  match decode_rlp_list_payload_items account_rlp with
  | .error e => .error e
  | .ok fields =>
    if fields.length ≠ 4 then .error .InvalidAccountValue
    else if (fields.getD 1 []).length > 32 then .error .InvalidAccountValue
    else .ok (List.replicate (32 - (fields.getD 1 []).length) 0 ++ fields.getD 1 [])

/-- `verify_account_proof_and_get_balance`. -/
def verify_account_proof_and_get_balance (state_root target_address : Bytes)
    (proof_nodes : List Bytes) : Except ClaimValidationError Bytes :=
  match verifyLoop (hash_to_nibbles (keccak256 target_address)) state_root
      proof_nodes.length proof_nodes 0 0 none with
  | .error e => .error e
  | .ok account => decode_account_balance account

/-- `balance_gte_total`: true iff a high byte is non-zero or the low 16 bytes,
    big-endian, reach the total. -/
def balance_gte_total (balance : Bytes) (total : Nat) : Bool :=
  if (balance.take 16).any (fun b => b ≠ 0) then true
  else beVal (balance.drop 16) ≥ total

/-! ## Block-header parser -/

/-- `parse_u64_from_rlp_quantity`: at most 8 big-endian bytes (checked
    arithmetic cannot overflow `u64` on 8 bytes of byte values; the bound is
    kept for byte-valued inputs). -/
def parse_u64_from_rlp_quantity (bytes : Bytes) : Option Nat :=
  if bytes.length > 8 then none
  else
    bytes.foldlM (fun acc b =>
      if acc * 256 < u64Mod then
        if acc * 256 + b < u64Mod then some (acc * 256 + b) else none
      else none) 0

/-- `parse_state_root_from_block_header`. -/
def parse_state_root_from_block_header (expected_block_hash : Bytes)
    (expected_block_number : Nat) (block_header_rlp : Bytes) :
    Except ClaimValidationError Bytes :=
  if keccak256 block_header_rlp ≠ expected_block_hash then
    .error .InvalidBlockHeaderHash
  else
    match decode_rlp_list_payload_items block_header_rlp with
    | .error e => .error e
    | .ok fields =>
      if fields.length < 9 ∨ (fields.getD 3 []).length ≠ 32 then
        .error .InvalidBlockHeaderShape
      else
        match parse_u64_from_rlp_quantity (fields.getD 8 []) with
        | none => .error .InvalidBlockHeaderShape
        | some block_number =>
          if block_number ≠ expected_block_number then .error .BlockNumberMismatch
          else .ok (fields.getD 3 [])

/-! ## Claim evaluator (constants, hash derivations, `evaluate_claim`) -/

def MAX_NOTES : Nat := 5
def MAX_TOTAL_WEI : Nat := 8000000000000000000
def MAX_PROOF_DEPTH : Nat := 64
def MAX_NODE_BYTES : Nat := 4096

/-- ASCII bytes of "shadow.recipient.v1". -/
def MAGIC_RECIPIENT : Bytes :=
  [115, 104, 97, 100, 111, 119, 46, 114, 101, 99, 105, 112, 105, 101, 110, 116, 46, 118, 49]

/-- ASCII bytes of "shadow.address.v1". -/
def MAGIC_ADDRESS : Bytes :=
  [115, 104, 97, 100, 111, 119, 46, 97, 100, 100, 114, 101, 115, 115, 46, 118, 49]

/-- ASCII bytes of "shadow.nullifier.v1". -/
def MAGIC_NULLIFIER : Bytes :=
  [115, 104, 97, 100, 111, 119, 46, 110, 117, 108, 108, 105, 102, 105, 101, 114, 46, 118, 49]

/-- `pad_magic_label`: the label's first `min 32` bytes in a 32-byte
    zero-filled buffer. -/
def pad_magic_label (label : Bytes) : Bytes :=
  writeSlice (List.replicate 32 0) 0 (label.take 32)

/-- `u64_to_bytes32`: big-endian `u64` left-padded to 32 bytes. -/
def u64_to_bytes32 (value : Nat) : Bytes :=
  writeSlice (List.replicate 32 0) 24 (beBytes 8 value)

/-- `u128_to_bytes32`: big-endian `u128` left-padded to 32 bytes. -/
def u128_to_bytes32 (value : Nat) : Bytes :=
  writeSlice (List.replicate 32 0) 16 (beBytes 16 value)

/-- `compute_recipient_hash`: SHA-256 over the padded magic label and the
    address left-padded to 32 bytes. -/
def compute_recipient_hash (recipient : Bytes) : Bytes :=
  let padded := writeSlice (List.replicate 32 0) 12 recipient
  let input := writeSlice (writeSlice (List.replicate 64 0) 0 (pad_magic_label MAGIC_RECIPIENT))
    32 padded
  sha256 input

/-- `compute_notes_hash`: SHA-256 over the `MAX_NOTES * 64`-byte zero-padded
    buffer of `(amount_be32, recipient_hash)` pairs. -/
def compute_notes_hash (note_count : Nat) (amounts : List Nat)
    (recipient_hashes : List Bytes) : Except ClaimValidationError Bytes :=
  if amounts.length < note_count ∨ recipient_hashes.length < note_count ∨
      note_count > MAX_NOTES then
    .error .InvalidInputLengths
  else
    let body := (List.range note_count).flatMap (fun i =>
      u128_to_bytes32 (amounts.getD i 0) ++ recipient_hashes.getD i (List.replicate 32 0))
    .ok (sha256 (body ++ List.replicate (MAX_NOTES * 64 - note_count * 64) 0))

/-- `derive_target_address`: low 20 bytes of the domain-separated SHA-256. -/
def derive_target_address (secret : Bytes) (chain_id : Nat) (notes_hash : Bytes) : Bytes :=
  let input := writeSlice (writeSlice (writeSlice (writeSlice (List.replicate 128 0)
    0 (pad_magic_label MAGIC_ADDRESS)) 32 (u64_to_bytes32 chain_id)) 64 secret) 96 notes_hash
  (sha256 input).drop 12

/-- `derive_nullifier`: domain-separated SHA-256 over label, chain id, secret
    and note index. -/
def derive_nullifier (secret : Bytes) (chain_id note_index : Nat) : Bytes :=
  let input := writeSlice (writeSlice (writeSlice (writeSlice (List.replicate 128 0)
    0 (pad_magic_label MAGIC_NULLIFIER)) 32 (u64_to_bytes32 chain_id)) 64 secret)
    96 (u64_to_bytes32 note_index)
  sha256 input

structure ClaimInput where
  block_number : Nat
  block_hash : Bytes
  chain_id : Nat
  note_index : Nat
  amount : Nat
  recipient : Bytes
  secret : Bytes
  note_count : Nat
  amounts : List Nat
  recipient_hashes : List Bytes
  block_header_rlp : Bytes
  proof_depth : Nat
  proof_nodes : List Bytes
  proof_node_lengths : List Nat
deriving DecidableEq, Repr

structure ClaimJournal where
  block_number : Nat
  block_hash : Bytes
  chain_id : Nat
  amount : Nat
  recipient : Bytes
  nullifier : Bytes
deriving DecidableEq, Repr

/-- The step-2 totals loop of `evaluate_claim`: zero test, then `u128`
    checked addition, per element in ascending order. -/
def sumChecked : List Nat → Nat → Except ClaimValidationError Nat
  | [], total => .ok total
  | amt :: rest, total =>
    if amt = 0 then .error .InactiveNoteHasZeroAmount
    else if total + amt < u128Mod then sumChecked rest (total + amt)
    else .error .TotalAmountExceeded

/-- The per-node shape loop of `evaluate_claim`: declared length must equal
    the node's length, which must not exceed `MAX_NODE_BYTES`. -/
def checkNodes : List Bytes → List Nat → Except ClaimValidationError Unit
  | [], _ => .ok ()
  | _, [] => .ok ()
  | node :: nodes, declared :: lens =>
    if node.length ≠ declared then .error .ProofShapeMismatch
    else if node.length > MAX_NODE_BYTES then .error .ProofNodeTooLarge
    else checkNodes nodes lens

/-- Steps 3..8 of `evaluate_claim` (everything after the totals scan), given
    the accumulated `total_amount`. -/
def evaluateFromTotals (input : ClaimInput) (total_amount : Nat) :
    Except ClaimValidationError ClaimJournal :=
  if total_amount > MAX_TOTAL_WEI then .error .TotalAmountExceeded
  else if input.proof_depth = 0 ∨ input.proof_depth > MAX_PROOF_DEPTH then
    .error .InvalidProofDepth
  else if input.proof_depth ≠ input.proof_nodes.length ∨
      input.proof_depth ≠ input.proof_node_lengths.length then
    .error .ProofShapeMismatch
  else
    match checkNodes input.proof_nodes input.proof_node_lengths with
    | .error e => .error e
    | .ok () =>
      match compute_notes_hash input.note_count input.amounts input.recipient_hashes with
      | .error e => .error e
      | .ok notes_hash =>
        match parse_state_root_from_block_header input.block_hash input.block_number
            input.block_header_rlp with
        | .error e => .error e
        | .ok state_root =>
          match verify_account_proof_and_get_balance state_root
              (derive_target_address input.secret input.chain_id notes_hash)
              input.proof_nodes with
          | .error e => .error e
          | .ok account_balance =>
            if ¬balance_gte_total account_balance total_amount then
              .error .InsufficientAccountBalance
            else
              .ok { block_number := input.block_number
                    block_hash := input.block_hash
                    chain_id := input.chain_id
                    amount := input.amount
                    recipient := input.recipient
                    nullifier := derive_nullifier input.secret input.chain_id
                      input.note_index }

/-- `evaluate_claim`: steps 1 and 2, then `evaluateFromTotals`. -/
def evaluate_claim (input : ClaimInput) : Except ClaimValidationError ClaimJournal :=
  if input.note_count = 0 ∨ input.note_count > MAX_NOTES then .error .InvalidNoteCount
  else if input.note_index ≥ input.note_count then .error .InvalidNoteIndex
  else if input.amounts.length < input.note_count ∨
      input.recipient_hashes.length < input.note_count then
    .error .InvalidInputLengths
  else if input.amounts.getD input.note_index 0 ≠ input.amount then
    .error .SelectedAmountMismatch
  else if input.recipient_hashes.getD input.note_index [] ≠
      compute_recipient_hash input.recipient then
    .error .RecipientHashMismatch
  else
    match sumChecked (input.amounts.take input.note_count) 0 with
    | .error e => .error e
    | .ok total_amount => evaluateFromTotals input total_amount

/-! ## Packed-journal codec -/

def PACKED_JOURNAL_LEN : Nat := 116

structure PackedJournalError where
  expected : Nat
  actual : Nat
deriving DecidableEq, Repr

def PackedJournalError.invalid_length (actual : Nat) : PackedJournalError :=
  ⟨PACKED_JOURNAL_LEN, actual⟩

/-- `pack_journal`: fixed 116-byte layout, little-endian scalars, written
    field by field into a zero-filled 116-byte buffer. -/
def pack_journal (journal : ClaimJournal) : Bytes :=
  writeSlice
    (writeSlice
      (writeSlice
        (writeSlice
          (writeSlice
            (writeSlice (List.replicate PACKED_JOURNAL_LEN 0)
              0 (leBytes 8 journal.block_number))
            8 journal.block_hash)
          40 (leBytes 8 journal.chain_id))
        48 (leBytes 16 journal.amount))
      64 journal.recipient)
    84 journal.nullifier

/-- `unpack_journal`. -/
def unpack_journal (bytes : Bytes) : Except PackedJournalError ClaimJournal :=
  if bytes.length ≠ PACKED_JOURNAL_LEN then
    .error (PackedJournalError.invalid_length bytes.length)
  else
    .ok { block_number := fromLeBytes (listSlice bytes 0 8)
          block_hash := listSlice bytes 8 40
          chain_id := fromLeBytes (listSlice bytes 40 48)
          amount := fromLeBytes (listSlice bytes 48 64)
          recipient := listSlice bytes 64 84
          nullifier := listSlice bytes 84 116 }

/-! ## Proof job queue (`packages/server/src/prover/queue.rs`), modelled on
the queue's single slot `Option ProofJob`; channel sends and logging are
side effects outside the state. -/

inductive JobStatus where
  | Queued
  | Running
  | Completed
  | Failed
  | Cancelled
deriving DecidableEq, Repr

structure ProofJob where
  deposit_id : String
  status : JobStatus
  current_note : Nat
  total_notes : Nat
  message : String
  error : Option String
deriving DecidableEq, Repr

/-- `ProofJob::new`. -/
def ProofJob.new (deposit_id : String) (total_notes : Nat) : ProofJob :=
  { deposit_id := deposit_id
    status := .Queued
    current_note := 0
    total_notes := total_notes
    message := "Queued for proving"
    error := none }

/-- Optional extra data attached to progress events (`ProgressExtra`); it only
    shapes the broadcast event, never the queue slot. -/
structure ProgressExtra where
  block_number : Option Nat
  chain_id : Option Nat
  stage : Option String
deriving DecidableEq, Repr

/-- `ProofQueue::enqueue` acting on the current slot; `.ok` carries the new
    slot contents, `.error` the rejection message (the slot is unchanged). -/
def ProofQueue.enqueue (current : Option ProofJob) (deposit_id : String)
    (total_notes : Nat) : Except String (Option ProofJob) :=
  match current with
  | some job =>
    if job.status = .Running ∨ job.status = .Queued then
      .error ("a proof job is already " ++
        (if job.status = .Running then "running" else "queued") ++
        " for deposit " ++ job.deposit_id)
    else .ok (some (ProofJob.new deposit_id total_notes))
  | none => .ok (some (ProofJob.new deposit_id total_notes))

/-- `ProofQueue::update_progress` acting on the current slot. -/
def ProofQueue.update_progress (current : Option ProofJob) (current_note : Nat)
    (message : String) (_extra : Option ProgressExtra) : Option ProofJob :=
  match current with
  | some job =>
    some { job with status := .Running, current_note := current_note, message := message }
  | none => none

/-! ## Specification-side formulas and concrete fixtures -/

/-- The spec's `pad32`: zero-pad the ASCII label to 32 bytes. -/
def pad32spec (label : Bytes) : Bytes := label ++ List.replicate (32 - label.length) 0

/-- The spec's `be32`: the value big-endian, left-padded to 32 bytes. -/
def be32spec (value : Nat) : Bytes := List.replicate 24 0 ++ beBytes 8 value

/-- The spec's nullifier formula:
    `SHA256( pad32(MAGIC_NULLIFIER) ∥ be32(chainId) ∥ secret ∥ be32(noteIndex) )`. -/
def spec_nullifier (secret : Bytes) (chain_id note_index : Nat) : Bytes :=
  sha256 (pad32spec MAGIC_NULLIFIER ++ be32spec chain_id ++ secret ++ be32spec note_index)

/-- Well-formedness of a journal, as imposed by the Rust field types
    (`u64`, `u128`, `[u8; 32]`, `[u8; 20]`). -/
def ClaimJournal.wf (j : ClaimJournal) : Prop :=
  j.block_number < u64Mod ∧ j.chain_id < u64Mod ∧ j.amount < u128Mod ∧
  j.block_hash.length = 32 ∧ j.recipient.length = 20 ∧ j.nullifier.length = 32

instance (j : ClaimJournal) : Decidable j.wf := by unfold ClaimJournal.wf; infer_instance

/-- A concrete journal for witnesses. -/
def journalFixture : ClaimJournal :=
  { block_number := 4739555
    block_hash := List.replicate 32 5
    chain_id := 167013
    amount := 123456789
    recipient := List.replicate 20 9
    nullifier := List.replicate 32 8 }

/-- SHA-256 of the recipient-hash preimage for the all-zero address
    (value checked below against `compute_recipient_hash`). -/
def zeroRecipientHash : Bytes :=
  [9, 26, 181, 193, 204, 215, 19, 109, 55, 188, 124, 181, 195, 173, 6, 62,
   156, 100, 96, 58, 171, 125, 195, 179, 189, 70, 206, 110, 104, 79, 58, 163]

/-- A witness whose first two `u128` amounts overflow during the step-2 scan
    while a zero amount sits at a later index: `amounts = [2^128 - 1, 1, 0]`.
    The trie/header fields are unreachable placeholders. -/
def overflowBeforeZeroInput : ClaimInput :=
  { block_number := 0
    block_hash := List.replicate 32 0
    chain_id := 167013
    note_index := 0
    amount := u128Mod - 1
    recipient := List.replicate 20 0
    secret := List.replicate 32 7
    note_count := 3
    amounts := [u128Mod - 1, 1, 0]
    recipient_hashes := [zeroRecipientHash, zeroRecipientHash, zeroRecipientHash]
    block_header_rlp := []
    proof_depth := 1
    proof_nodes := [[0]]
    proof_node_lengths := [1] }

/-- A witness whose first amount is zero: the step-2 scan hits the zero
    immediately. -/
def zeroAmountInput : ClaimInput :=
  { overflowBeforeZeroInput with amounts := [0, 1, 1], amount := 0 }

/-- The S1 fixture address: 20 bytes of `0x11`. -/
def s1Address : Bytes := List.replicate 20 0x11

/-- The S1 fixture account RLP:
    `rlp([rlp(0), rlp(0x01_02_03_04_05), rlp(0x22·32), rlp(0x33·32)])`. -/
def s1AccountRlp : Bytes :=
  rlp_encode_list
    [rlp_encode_bytes [], rlp_encode_bytes [1, 2, 3, 4, 5],
     rlp_encode_bytes (List.replicate 32 0x22), rlp_encode_bytes (List.replicate 32 0x33)]

/-- The S1 fixture leaf node: `[compactEncode(nibbles(keyHash), leaf), rlp(account)]`. -/
def s1LeafNode : Bytes :=
  rlp_encode_list
    [rlp_encode_bytes
      (nibbles_to_compact_path (hash_to_nibbles (keccak256 s1Address)) true),
     rlp_encode_bytes s1AccountRlp]

/-- An extension node (even, non-leaf, empty path) whose value/ref slot is the
    empty string: `rlp_list[compact([], ext), ""] = [0xc2, 0x00, 0x80]`. -/
def emptyRefExtensionNode : Bytes := [0xc2, 0x00, 0x80]

/-- A branch node whose 17 children are all empty strings. -/
def emptyBranchNode : Bytes := rlp_encode_list (List.replicate 17 (rlp_encode_bytes []))

/-- A minimal 9-field header: three empty fields, a 32-byte state root of
    `0xaa`, four empty fields, block number `5`. -/
def smallHeader : Bytes :=
  rlp_encode_list
    [rlp_encode_bytes [], rlp_encode_bytes [], rlp_encode_bytes [],
     rlp_encode_bytes (List.replicate 32 0xaa),
     rlp_encode_bytes [], rlp_encode_bytes [], rlp_encode_bytes [], rlp_encode_bytes [],
     rlp_encode_bytes [5]]

/-- A job fixture with Running status. -/
def runningJob : ProofJob :=
  { deposit_id := "a", status := .Running, current_note := 0, total_notes := 2,
    message := "m", error := none }

/-- A job fixture with Cancelled status. -/
def cancelledJob : ProofJob :=
  { deposit_id := "a", status := .Cancelled, current_note := 1, total_notes := 2,
    message := "m", error := none }

/-! ## Basic lemmas about the byte-buffer primitives -/

theorem leBytes_length (n v : Nat) : (leBytes n v).length = n := by
  induction n generalizing v with
  | zero => rfl
  | succ n ih => simp [leBytes, ih]

theorem beBytes_length (n v : Nat) : (beBytes n v).length = n := by
  simp [beBytes, leBytes_length]

theorem fromLeBytes_cons (b : Nat) (l : Bytes) :
    fromLeBytes (b :: l) = fromLeBytes l * 256 + b := by
  simp [fromLeBytes]

theorem fromLeBytes_leBytes (n v : Nat) (h : v < 256 ^ n) :
    fromLeBytes (leBytes n v) = v := by
  induction n generalizing v with
  | zero => simp [leBytes, fromLeBytes]; omega
  | succ n ih =>
    have hdiv : v / 256 < 256 ^ n := by
      rw [Nat.div_lt_iff_lt_mul (by norm_num)]
      calc v < 256 ^ (n + 1) := h
        _ = 256 ^ n * 256 := by ring
    simp [leBytes, fromLeBytes_cons, ih _ hdiv, Nat.div_add_mod, Nat.mul_comm]

theorem getD_append_right' (l₁ l₂ : Bytes) (i : Nat) :
    (l₁ ++ l₂).getD (l₁.length + i) 0 = l₂.getD i 0 := by
  simp [List.getD, List.getElem?_append_right]

theorem getD_append_left' (l₁ l₂ : Bytes) (i : Nat) (h : i < l₁.length) :
    (l₁ ++ l₂).getD i 0 = l₁.getD i 0 := by
  simp [List.getD, List.getElem?_append_left, h]

theorem getD_replicate (n a i : Nat) : (List.replicate n a).getD i a = a := by
  rcases lt_or_ge i n with h | h
  · simp [List.getD, List.getElem?_replicate, h]
  · simp [List.getD, List.getElem?_eq_none, h]

theorem take_append_exact (l₁ l₂ : Bytes) : (l₁ ++ l₂).take l₁.length = l₁ := by
  simp [List.take_left]

theorem drop_append_exact (l₁ l₂ : Bytes) : (l₁ ++ l₂).drop l₁.length = l₂ := by
  simp [List.drop_left]

theorem listSlice_prefix (pre rest : Bytes) : listSlice (pre ++ rest) 0 pre.length = pre := by
  simp [listSlice, take_append_exact]

theorem listSlice_mid (pre mid rest : Bytes) :
    listSlice (pre ++ mid ++ rest) pre.length (pre.length + mid.length) = mid := by
  unfold listSlice
  rw [List.append_assoc, List.take_append, take_append_exact, drop_append_exact]

theorem listSlice_all (l : Bytes) : listSlice l 0 l.length = l := by
  simp [listSlice]

theorem writeSlice_exact (pre mid rest src : Bytes) (hlen : src.length = mid.length) :
    writeSlice (pre ++ mid ++ rest) pre.length src = pre ++ src ++ rest := by
  unfold writeSlice
  rw [show pre ++ mid ++ rest = pre ++ (mid ++ rest) from List.append_assoc pre mid rest,
    take_append_exact, hlen,
    show pre.length + mid.length = (pre ++ mid).length by simp,
    show pre ++ (mid ++ rest) = pre ++ mid ++ rest from (List.append_assoc pre mid rest).symm,
    drop_append_exact, List.append_assoc]

/-- Writing `src` (of length `n`) at the end of the initialized prefix of a
    zero-filled buffer. -/
theorem writeSlice_step (a : Bytes) (n m : Nat) (src : Bytes) (hsrc : src.length = n) :
    writeSlice (a ++ List.replicate (n + m) 0) a.length src =
      a ++ src ++ List.replicate m 0 := by
  have hsplit : a ++ List.replicate (n + m) 0 =
      a ++ List.replicate n 0 ++ List.replicate m 0 := by
    rw [List.append_assoc, ← List.replicate_add]
  rw [hsplit, writeSlice_exact a (List.replicate n 0) (List.replicate m 0) src
    (by simp [hsrc])]

/-- `pack_journal` of a well-formed journal is the plain concatenation of its
    six fields. -/
theorem pack_journal_eq (j : ClaimJournal) (h : j.wf) :
    pack_journal j =
      leBytes 8 j.block_number ++ j.block_hash ++ leBytes 8 j.chain_id ++
        leBytes 16 j.amount ++ j.recipient ++ j.nullifier := by
  obtain ⟨-, -, -, hbh, hrec, hnul⟩ := h
  unfold pack_journal
  have h1 : writeSlice (List.replicate PACKED_JOURNAL_LEN 0) 0 (leBytes 8 j.block_number) =
      leBytes 8 j.block_number ++ List.replicate 108 0 := by
    have := writeSlice_step [] 8 108 (leBytes 8 j.block_number) (leBytes_length 8 _)
    simpa using this
  rw [h1]
  have h2 := writeSlice_step (leBytes 8 j.block_number) 32 76 j.block_hash hbh
  rw [leBytes_length] at h2
  rw [show (108 : Nat) = 32 + 76 by norm_num, h2]
  have h3 := writeSlice_step (leBytes 8 j.block_number ++ j.block_hash) 8 68
    (leBytes 8 j.chain_id) (leBytes_length 8 _)
  rw [List.length_append, leBytes_length, hbh] at h3
  rw [show (76 : Nat) = 8 + 68 by norm_num, h3]
  have h4 := writeSlice_step
    (leBytes 8 j.block_number ++ j.block_hash ++ leBytes 8 j.chain_id) 16 52
    (leBytes 16 j.amount) (leBytes_length 16 _)
  rw [List.length_append, List.length_append, leBytes_length, leBytes_length, hbh] at h4
  rw [show (68 : Nat) = 16 + 52 by norm_num, h4]
  have h5 := writeSlice_step
    (leBytes 8 j.block_number ++ j.block_hash ++ leBytes 8 j.chain_id ++ leBytes 16 j.amount)
    20 32 j.recipient hrec
  rw [List.length_append, List.length_append, List.length_append, leBytes_length,
    leBytes_length, leBytes_length, hbh] at h5
  rw [show (52 : Nat) = 20 + 32 by norm_num, h5]
  have h6 := writeSlice_step
    (leBytes 8 j.block_number ++ j.block_hash ++ leBytes 8 j.chain_id ++
      leBytes 16 j.amount ++ j.recipient) 32 0 j.nullifier hnul
  rw [List.length_append, List.length_append, List.length_append, List.length_append,
    leBytes_length, leBytes_length, leBytes_length, hbh, hrec] at h6
  rw [show (32 : Nat) = 32 + 0 by norm_num, h6]
  simp

theorem pow256_8 : (256 : Nat) ^ 8 = u64Mod := by norm_num [u64Mod]

theorem pow256_16 : (256 : Nat) ^ 16 = u128Mod := by norm_num [u128Mod]

/-- `unpack_journal` recovers a well-formed journal from `pack_journal`. -/
theorem unpack_pack (j : ClaimJournal) (h : j.wf) :
    unpack_journal (pack_journal j) = .ok j := by
  obtain ⟨bn, bh, cid, amt, rec, nul⟩ := j
  obtain ⟨hbn, hcid, hamt, hbh, hrec, hnul⟩ := h
  simp only at hbn hcid hamt hbh hrec hnul
  rw [pack_journal_eq _ ⟨hbn, hcid, hamt, hbh, hrec, hnul⟩]
  simp only
  have hlen : (leBytes 8 bn ++ bh ++ leBytes 8 cid ++ leBytes 16 amt ++ rec ++ nul).length =
      PACKED_JOURNAL_LEN := by
    simp [leBytes_length, hbh, hrec, hnul, PACKED_JOURNAL_LEN]
  have e0 : listSlice (leBytes 8 bn ++ bh ++ leBytes 8 cid ++ leBytes 16 amt ++ rec ++ nul)
      0 8 = leBytes 8 bn := by
    have hg : leBytes 8 bn ++ bh ++ leBytes 8 cid ++ leBytes 16 amt ++ rec ++ nul =
        leBytes 8 bn ++ (bh ++ (leBytes 8 cid ++ (leBytes 16 amt ++ (rec ++ nul)))) := by
      simp [List.append_assoc]
    rw [hg]
    have := listSlice_prefix (leBytes 8 bn)
      (bh ++ (leBytes 8 cid ++ (leBytes 16 amt ++ (rec ++ nul))))
    rwa [leBytes_length] at this
  have e1 : listSlice (leBytes 8 bn ++ bh ++ leBytes 8 cid ++ leBytes 16 amt ++ rec ++ nul)
      8 40 = bh := by
    have hg : leBytes 8 bn ++ bh ++ leBytes 8 cid ++ leBytes 16 amt ++ rec ++ nul =
        leBytes 8 bn ++ bh ++ (leBytes 8 cid ++ (leBytes 16 amt ++ (rec ++ nul))) := by
      simp [List.append_assoc]
    rw [hg]
    have := listSlice_mid (leBytes 8 bn) bh
      (leBytes 8 cid ++ (leBytes 16 amt ++ (rec ++ nul)))
    rwa [leBytes_length, hbh] at this
  have e2 : listSlice (leBytes 8 bn ++ bh ++ leBytes 8 cid ++ leBytes 16 amt ++ rec ++ nul)
      40 48 = leBytes 8 cid := by
    have hg : leBytes 8 bn ++ bh ++ leBytes 8 cid ++ leBytes 16 amt ++ rec ++ nul =
        (leBytes 8 bn ++ bh) ++ leBytes 8 cid ++ (leBytes 16 amt ++ (rec ++ nul)) := by
      simp [List.append_assoc]
    rw [hg]
    have := listSlice_mid (leBytes 8 bn ++ bh) (leBytes 8 cid)
      (leBytes 16 amt ++ (rec ++ nul))
    rwa [List.length_append, leBytes_length, leBytes_length, hbh] at this
  have e3 : listSlice (leBytes 8 bn ++ bh ++ leBytes 8 cid ++ leBytes 16 amt ++ rec ++ nul)
      48 64 = leBytes 16 amt := by
    have hg : leBytes 8 bn ++ bh ++ leBytes 8 cid ++ leBytes 16 amt ++ rec ++ nul =
        (leBytes 8 bn ++ bh ++ leBytes 8 cid) ++ leBytes 16 amt ++ (rec ++ nul) := by
      simp [List.append_assoc]
    rw [hg]
    have := listSlice_mid (leBytes 8 bn ++ bh ++ leBytes 8 cid) (leBytes 16 amt) (rec ++ nul)
    rwa [List.length_append, List.length_append, leBytes_length, leBytes_length,
      leBytes_length, hbh] at this
  have e4 : listSlice (leBytes 8 bn ++ bh ++ leBytes 8 cid ++ leBytes 16 amt ++ rec ++ nul)
      64 84 = rec := by
    have hg : leBytes 8 bn ++ bh ++ leBytes 8 cid ++ leBytes 16 amt ++ rec ++ nul =
        (leBytes 8 bn ++ bh ++ leBytes 8 cid ++ leBytes 16 amt) ++ rec ++ nul := by
      simp [List.append_assoc]
    rw [hg]
    have := listSlice_mid (leBytes 8 bn ++ bh ++ leBytes 8 cid ++ leBytes 16 amt) rec nul
    rwa [List.length_append, List.length_append, List.length_append, leBytes_length,
      leBytes_length, leBytes_length, hbh, hrec] at this
  have e5 : listSlice (leBytes 8 bn ++ bh ++ leBytes 8 cid ++ leBytes 16 amt ++ rec ++ nul)
      84 116 = nul := by
    have hg : leBytes 8 bn ++ bh ++ leBytes 8 cid ++ leBytes 16 amt ++ rec ++ nul =
        (leBytes 8 bn ++ bh ++ leBytes 8 cid ++ leBytes 16 amt ++ rec) ++ nul ++ [] := by
      simp [List.append_assoc]
    rw [hg]
    have := listSlice_mid (leBytes 8 bn ++ bh ++ leBytes 8 cid ++ leBytes 16 amt ++ rec)
      nul []
    rwa [List.length_append, List.length_append, List.length_append, List.length_append,
      leBytes_length, leBytes_length, leBytes_length, hbh, hrec, hnul] at this
  unfold unpack_journal
  rw [hlen]
  simp only [PACKED_JOURNAL_LEN, if_neg (by omega : ¬(116 : Nat) ≠ 116)]
  rw [e0, e1, e2, e3, e4, e5,
    fromLeBytes_leBytes 8 bn (by rw [pow256_8]; exact hbn),
    fromLeBytes_leBytes 8 cid (by rw [pow256_8]; exact hcid),
    fromLeBytes_leBytes 16 amt (by rw [pow256_16]; exact hamt)]

/-- C3: packing then unpacking is the identity on (well-formed) journals, and
    `unpack_journal` fails exactly on byte strings whose length is not 116,
    reporting `expected = 116` and the actual length. -/
theorem C3_packed_journal_roundtrip :
    (∀ j : ClaimJournal, j.wf → unpack_journal (pack_journal j) = .ok j) ∧
    (∀ b : Bytes, (∃ e, unpack_journal b = .error e) ↔ b.length ≠ PACKED_JOURNAL_LEN) ∧
    (∀ b : Bytes, b.length ≠ PACKED_JOURNAL_LEN →
      unpack_journal b = .error ⟨PACKED_JOURNAL_LEN, b.length⟩) := by
  refine ⟨unpack_pack, ?_, ?_⟩
  · intro b
    constructor
    · rintro ⟨e, he⟩
      intro hlen
      unfold unpack_journal at he
      rw [if_neg (by omega)] at he
      exact Except.noConfusion he
    · intro hlen
      refine ⟨PackedJournalError.invalid_length b.length, ?_⟩
      unfold unpack_journal
      rw [if_pos hlen]
  · intro b hlen
    unfold unpack_journal
    rw [if_pos hlen]
    rfl

/-- Witness for C3: the concrete fixture round-trips, and a 3-byte input fails
    with `expected = 116, actual = 3`. -/
theorem C3_witness :
    journalFixture.wf ∧
      unpack_journal (pack_journal journalFixture) = .ok journalFixture ∧
      unpack_journal [1, 2, 3] = .error ⟨PACKED_JOURNAL_LEN, 3⟩ :=
  ⟨by decide, C3_packed_journal_roundtrip.1 journalFixture (by decide),
    C3_packed_journal_roundtrip.2.2 [1, 2, 3] (by decide)⟩

/-! ## C8: balance comparison -/

/-- C8: `balance_gte_total(b, total)` is true iff the high 16 bytes of the
    32-byte buffer contain a non-zero byte, or the low 16 bytes read as a
    big-endian `u128` are at least `total`. -/
theorem C8_balance_gte (b : Bytes) (total : Nat) (h : b.length = 32) :
    balance_gte_total b total = true ↔
      (∃ x ∈ b.take 16, x ≠ 0) ∨ beVal (listSlice b 16 32) ≥ total := by
  have hsl : listSlice b 16 32 = b.drop 16 := by
    unfold listSlice
    rw [← h, List.take_length]
  unfold balance_gte_total
  rw [hsl]
  split
  · next hany =>
    simp only [List.any_eq_true, decide_eq_true_eq] at hany
    simp [hany]
  · next hany =>
    simp only [List.any_eq_true, decide_eq_true_eq] at hany
    simp only [hany, false_or]
    simp [ge_iff_le, decide_eq_true_eq]

/-- Witness for C8: the S1 balance buffer (27 zero bytes then
    `01 02 03 04 05`) meets a total of `0x0102030405` but not `+1`. -/
theorem C8_witness :
    (List.replicate 27 0 ++ [1, 2, 3, 4, 5] : Bytes).length = 32 ∧
      (balance_gte_total (List.replicate 27 0 ++ [1, 2, 3, 4, 5]) 4328719365 = true ↔
        (∃ x ∈ (List.replicate 27 0 ++ [1, 2, 3, 4, 5] : Bytes).take 16, x ≠ 0) ∨
          beVal (listSlice (List.replicate 27 0 ++ [1, 2, 3, 4, 5]) 16 32) ≥ 4328719365) :=
  ⟨by decide, C8_balance_gte (List.replicate 27 0 ++ [1, 2, 3, 4, 5]) 4328719365 (by decide)⟩

/-! ## C9 and C10: proof job queue -/

/-- C9: `enqueue` fails exactly when the slot holds a Queued or Running job;
    an empty slot or a terminal job is replaced by a fresh Queued job for the
    requested deposit with `current_note = 0` and the given note total. -/
theorem C9_enqueue_contract (current : Option ProofJob) (deposit_id : String)
    (total_notes : Nat) :
    ((∃ msg, ProofQueue.enqueue current deposit_id total_notes = .error msg) ↔
      ∃ job, current = some job ∧ (job.status = .Queued ∨ job.status = .Running)) ∧
    ((current = none ∨ ∃ job, current = some job ∧ job.status ≠ .Queued ∧
        job.status ≠ .Running) →
      ProofQueue.enqueue current deposit_id total_notes =
        .ok (some (ProofJob.new deposit_id total_notes))) ∧
    (ProofJob.new deposit_id total_notes).deposit_id = deposit_id ∧
    (ProofJob.new deposit_id total_notes).status = .Queued ∧
    (ProofJob.new deposit_id total_notes).current_note = 0 ∧
    (ProofJob.new deposit_id total_notes).total_notes = total_notes := by
  refine ⟨?_, ?_, rfl, rfl, rfl, rfl⟩
  · constructor
    · rintro ⟨msg, hmsg⟩
      cases current with
      | none => simp [ProofQueue.enqueue] at hmsg
      | some job =>
        by_cases hst : job.status = .Running ∨ job.status = .Queued
        · exact ⟨job, rfl, hst.symm⟩
        · unfold ProofQueue.enqueue at hmsg
          simp [hst] at hmsg
    · rintro ⟨job, hj, hst⟩
      subst hj
      unfold ProofQueue.enqueue
      have hor : job.status = .Running ∨ job.status = .Queued := hst.symm
      simp [hor]
  · rintro (hnone | ⟨job, hj, hq, hr⟩)
    · subst hnone; rfl
    · subst hj
      unfold ProofQueue.enqueue
      have hor : ¬(job.status = .Running ∨ job.status = .Queued) := by
        rintro (h | h) <;> [exact hr h; exact hq h]
      simp [hor]

/-- Witness for C9: a slot holding a Running job rejects a new deposit, and a
    slot holding a Cancelled job accepts one. -/
theorem C9_witness :
    ((∃ msg, ProofQueue.enqueue (some runningJob) "b" 3 = .error msg) ↔
      ∃ job, (some runningJob : Option ProofJob) = some job ∧
        (job.status = .Queued ∨ job.status = .Running)) ∧
    ProofQueue.enqueue (some cancelledJob) "b" 3 = .ok (some (ProofJob.new "b" 3)) :=
  ⟨(C9_enqueue_contract (some runningJob) "b" 3).1,
   (C9_enqueue_contract (some cancelledJob) "b" 3).2.1
     (Or.inr ⟨cancelledJob, rfl, by simp [cancelledJob], by simp [cancelledJob]⟩)⟩

/-- C10: `update_progress` on a non-empty slot always forces the status to
    Running (current note and message updated), for jobs of any prior status —
    terminal statuses, Cancelled included, are not preserved. -/
theorem C10_update_progress_running (job : ProofJob) (current_note : Nat)
    (message : String) (extra : Option ProgressExtra) :
    ProofQueue.update_progress (some job) current_note message extra =
      some { job with
        status := .Running
        current_note := current_note
        message := message } ∧
    (job.status = .Cancelled →
      ∃ j', ProofQueue.update_progress (some job) current_note message extra = some j' ∧
        j'.status = .Running) :=
  ⟨rfl, fun _ => ⟨_, rfl, rfl⟩⟩

/-- Witness for C10: a Cancelled job becomes Running again on a late progress
    update. -/
theorem C10_witness :
    ∃ j', ProofQueue.update_progress (some cancelledJob) 1 "late" none = some j' ∧
      j'.status = .Running :=
  (C10_update_progress_running cancelledJob 1 "late" none).2 rfl

/-! ## C7: nullifier derivation -/

theorem pad_magic_nullifier_eq : pad_magic_label MAGIC_NULLIFIER = pad32spec MAGIC_NULLIFIER := by
  decide

theorem u64_to_bytes32_eq (v : Nat) : u64_to_bytes32 v = be32spec v := by
  unfold u64_to_bytes32 be32spec
  have hsplit : (List.replicate 32 0 : Bytes) =
      List.replicate 24 0 ++ List.replicate (8 + 0) 0 := by
    rw [← List.replicate_add]
  rw [hsplit]
  have := writeSlice_step (List.replicate 24 0) 8 0 (beBytes 8 v) (beBytes_length 8 v)
  rw [List.length_replicate] at this
  rw [this]
  simp

theorem u64_to_bytes32_length (v : Nat) : (u64_to_bytes32 v).length = 32 := by
  rw [u64_to_bytes32_eq]
  simp [be32spec, beBytes_length]

theorem derive_nullifier_eq (secret : Bytes) (chain_id note_index : Nat)
    (hs : secret.length = 32) :
    derive_nullifier secret chain_id note_index =
      spec_nullifier secret chain_id note_index := by
  unfold derive_nullifier spec_nullifier
  have hpadlen : (pad_magic_label MAGIC_NULLIFIER).length = 32 := by decide
  have w1 : writeSlice (List.replicate 128 0) 0 (pad_magic_label MAGIC_NULLIFIER) =
      pad_magic_label MAGIC_NULLIFIER ++ List.replicate 96 0 := by
    have := writeSlice_step [] 32 96 (pad_magic_label MAGIC_NULLIFIER) hpadlen
    simpa using this
  rw [w1]
  have w2 := writeSlice_step (pad_magic_label MAGIC_NULLIFIER) 32 64
    (u64_to_bytes32 chain_id) (u64_to_bytes32_length chain_id)
  rw [hpadlen] at w2
  rw [show (96 : Nat) = 32 + 64 by norm_num, w2]
  have w3 := writeSlice_step (pad_magic_label MAGIC_NULLIFIER ++ u64_to_bytes32 chain_id)
    32 32 secret hs
  rw [List.length_append, hpadlen, u64_to_bytes32_length] at w3
  rw [show (64 : Nat) = 32 + 32 by norm_num, w3]
  have w4 := writeSlice_step
    (pad_magic_label MAGIC_NULLIFIER ++ u64_to_bytes32 chain_id ++ secret) 32 0
    (u64_to_bytes32 note_index) (u64_to_bytes32_length note_index)
  rw [List.length_append, List.length_append, hpadlen, u64_to_bytes32_length, hs] at w4
  rw [show (32 : Nat) = 32 + 0 by norm_num, w4]
  rw [pad_magic_nullifier_eq, u64_to_bytes32_eq, u64_to_bytes32_eq]
  simp

/-- C7: `derive_nullifier` is exactly the spec formula
    `SHA256(pad32(MAGIC_NULLIFIER) ∥ be32(chainId) ∥ secret ∥ be32(noteIndex))`
    for every 32-byte secret, chain id and note index; and on the S5 fixture
    (secret 32 bytes of 7, chain id 167013) the nullifiers of note 0 and note 1
    differ. -/
theorem C7_nullifier_formula :
    (∀ (secret : Bytes) (chain_id note_index : Nat), secret.length = 32 →
      derive_nullifier secret chain_id note_index =
        spec_nullifier secret chain_id note_index) ∧
    derive_nullifier (List.replicate 32 7) 167013 0 ≠
      derive_nullifier (List.replicate 32 7) 167013 1 := by
  refine ⟨fun s c i hs => derive_nullifier_eq s c i hs, ?_⟩
  decide

/-- Witness for C7: the formula instantiated at the S5 fixture secret. -/
theorem C7_witness :
    derive_nullifier (List.replicate 32 7) 167013 0 =
      spec_nullifier (List.replicate 32 7) 167013 0 :=
  C7_nullifier_formula.1 (List.replicate 32 7) 167013 0 (by decide)

/-! ## C2: block-header parser -/

theorem parse_u64_aux (q : Bytes) (acc : Nat) (hwf : wfBytes q) (hlen : q.length ≤ 8)
    (hacc : acc < 256 ^ (8 - q.length)) :
    q.foldlM (fun acc b =>
      if acc * 256 < u64Mod then
        if acc * 256 + b < u64Mod then some (acc * 256 + b) else none
      else none) acc = some (q.foldl (fun a b => a * 256 + b) acc) := by
  induction q generalizing acc with
  | nil => rfl
  | cons b rest ih =>
    have hb : b < 256 := hwf b (List.mem_cons_self b rest)
    have hrest : rest.length ≤ 8 := by simp at hlen; omega
    have hexp : 256 ^ (8 - (b :: rest).length) * 256 ≤ 256 ^ (8 - rest.length) := by
      have h1 : 8 - (b :: rest).length + 1 ≤ 8 - rest.length := by
        simp only [List.length_cons] at hlen ⊢
        omega
      calc 256 ^ (8 - (b :: rest).length) * 256 = 256 ^ (8 - (b :: rest).length + 1) := by ring
        _ ≤ 256 ^ (8 - rest.length) := Nat.pow_le_pow_right (by norm_num) h1
    have hstep : acc * 256 + b < 256 ^ (8 - rest.length) := by
      have : acc * 256 + b < (acc + 1) * 256 := by omega
      have h2 : (acc + 1) * 256 ≤ 256 ^ (8 - (b :: rest).length) * 256 :=
        Nat.mul_le_mul_right 256 hacc
      omega
    have hlt : 256 ^ (8 - rest.length) ≤ u64Mod := by
      unfold u64Mod
      calc (256 : Nat) ^ (8 - rest.length) ≤ 256 ^ 8 := Nat.pow_le_pow_right (by norm_num) (by omega)
        _ = 2 ^ 64 := by norm_num
    have hmul : acc * 256 < u64Mod := by omega
    have hadd : acc * 256 + b < u64Mod := by omega
    simp only [List.foldlM_cons, if_pos hmul, if_pos hadd, Option.bind_eq_bind,
      Option.some_bind]
    exact ih (acc * 256 + b) (fun x hx => hwf x (List.mem_cons_of_mem b hx)) hrest hstep

theorem parse_u64_of_wf (q : Bytes) (hlen : q.length ≤ 8) (hwf : wfBytes q) :
    parse_u64_from_rlp_quantity q = some (beVal q) := by
  unfold parse_u64_from_rlp_quantity beVal
  rw [if_neg (by omega)]
  exact parse_u64_aux q 0 hwf hlen (Nat.pos_pow_of_pos _ (by norm_num))

/-- C2: `parse_state_root_from_block_header` accepts a blob that hashes to the
    expected hash, decodes as a list of at least 9 byte-string fields with a
    32-byte field 3, and declares (field 8, a big-endian quantity of at most 8
    bytes) the expected number, returning field 3; with the right hash but the
    wrong declared number it fails with `BlockNumberMismatch`; with the wrong
    hash it fails with `InvalidBlockHeaderHash` regardless of the number. -/
theorem C2_block_header_contract :
    (∀ (h : Bytes) (n : Nat) (blob : Bytes) (fields : List Bytes) (m : Nat),
      keccak256 blob = h →
      decode_rlp_list_payload_items blob = .ok fields →
      9 ≤ fields.length →
      (fields.getD 3 []).length = 32 →
      parse_u64_from_rlp_quantity (fields.getD 8 []) = some m →
      (m = n → parse_state_root_from_block_header h n blob = .ok (fields.getD 3 [])) ∧
      (m ≠ n → parse_state_root_from_block_header h n blob = .error .BlockNumberMismatch)) ∧
    (∀ (h : Bytes) (n : Nat) (blob : Bytes), keccak256 blob ≠ h →
      parse_state_root_from_block_header h n blob = .error .InvalidBlockHeaderHash) ∧
    (∀ q : Bytes, q.length ≤ 8 → wfBytes q →
      parse_u64_from_rlp_quantity q = some (beVal q)) := by
  refine ⟨?_, ?_, parse_u64_of_wf⟩
  · intro h n blob fields m hkec hdec hlen h3 h8
    have hA : ¬fields.length < 9 := by omega
    simp only [List.getD, List.get?_eq_getElem?] at h3 h8
    constructor
    · intro hm
      subst hm
      simp [parse_state_root_from_block_header, List.getD, hkec, hdec, hA, h3, h8]
    · intro hm
      simp [parse_state_root_from_block_header, List.getD, hkec, hdec, hA, h3, h8, hm]
  · intro h n blob hne
    unfold parse_state_root_from_block_header
    rw [if_pos hne]

/-- Witness for C2: the 9-field fixture header is accepted for its own hash and
    number 5, rejected for number 6, and rejected for a different hash. -/
theorem C2_witness :
    parse_state_root_from_block_header (keccak256 smallHeader) 5 smallHeader =
      .ok (List.replicate 32 0xaa) ∧
    parse_state_root_from_block_header (keccak256 smallHeader) 6 smallHeader =
      .error .BlockNumberMismatch ∧
    parse_state_root_from_block_header (keccak256 (0 :: smallHeader)) 5 smallHeader =
      .error .InvalidBlockHeaderHash := by
  refine ⟨?_, ?_, ?_⟩
  · exact (C2_block_header_contract.1 (keccak256 smallHeader) 5 smallHeader
      [[], [], [], List.replicate 32 0xaa, [], [], [], [], [5]] 5 rfl (by decide)
      (by decide) (by decide) (by decide)).1 rfl
  · exact (C2_block_header_contract.1 (keccak256 smallHeader) 6 smallHeader
      [[], [], [], List.replicate 32 0xaa, [], [], [], [], [5]] 5 rfl (by decide)
      (by decide) (by decide) (by decide)).2 (by omega)
  · exact C2_block_header_contract.2.1 (keccak256 (0 :: smallHeader)) 5 smallHeader
      (by decide)

/-! ## C4: RLP robustness -/

/-- Counterexample for C4: the input `[0xc2, 0xb8, 0x00]` is a two-byte-payload
    list whose only child `0xb8 0x00` is a long string declaring, via its
    length-of-length byte, a zero-length payload.  The claim requires
    `InvalidRlpNode`; the decoder instead accepts it as an empty string
    child. -/
theorem C4_zero_length_long_string_accepted :
    decode_rlp_list_payload_items [0xc2, 0xb8, 0x00] = .ok [[]] ∧
      decode_rlp_list_payload_items [0xc2, 0xb8, 0x00] ≠
        .error .InvalidRlpNode := by
  refine ⟨by decide, ?_⟩
  intro h
  rw [show decode_rlp_list_payload_items [0xc2, 0xb8, 0x00] = .ok [[]] from by decide] at h
  exact Except.noConfusion h

/-- C4 (amended): `decode_rlp_list_payload_items` yields `InvalidRlpNode` on a
    non-list outer item, on an outer item whose total length differs from the
    input length (trailing bytes included), on any decode error of the outer
    item, and on a list child met during the scan; `decode_rlp_item` yields
    `InvalidRlpNode` on short-form declared-length overruns, on truncated
    length-of-lengths, and on long-form declared-length overruns whose length
    arithmetic stays below the 64-bit boundary; `read_be_usize` rejects a
    length slice that is empty or longer than the 8-byte pointer width.  A
    long string declaring zero payload length via its length-of-length byte
    is, however, accepted as an empty string child. -/
theorem C4_rlp_malformed_amended :
    (∀ (input : Bytes) (top : RlpItem), decode_rlp_item input 0 = .ok top →
      top.is_list = false →
      decode_rlp_list_payload_items input = .error .InvalidRlpNode) ∧
    (∀ (input : Bytes) (top : RlpItem), decode_rlp_item input 0 = .ok top →
      top.total_len ≠ input.length →
      decode_rlp_list_payload_items input = .error .InvalidRlpNode) ∧
    (∀ (input : Bytes) (e : ClaimValidationError), decode_rlp_item input 0 = .error e →
      decode_rlp_list_payload_items input = .error e) ∧
    (∀ (input : Bytes) (fuel cursor endPos : Nat) (item : RlpItem), cursor < endPos →
      decode_rlp_item input cursor = .ok item → item.is_list = true →
      rlpItems input fuel cursor endPos = .error .InvalidRlpNode) ∧
    (∀ (input : Bytes) (offset : Nat), offset < input.length →
      0x7f < input.getD offset 0 → input.getD offset 0 ≤ 0xb7 →
      offset + 1 + (input.getD offset 0 - 0x80) > input.length →
      decode_rlp_item input offset = .error .InvalidRlpNode) ∧
    (∀ (input : Bytes) (offset : Nat), offset < input.length →
      0xbf < input.getD offset 0 → input.getD offset 0 ≤ 0xf7 →
      offset + 1 + (input.getD offset 0 - 0xc0) > input.length →
      decode_rlp_item input offset = .error .InvalidRlpNode) ∧
    (∀ (input : Bytes) (offset : Nat), offset < input.length →
      0xb7 < input.getD offset 0 → input.getD offset 0 ≤ 0xbf →
      offset + 1 + (input.getD offset 0 - 0xb7) > input.length →
      decode_rlp_item input offset = .error .InvalidRlpNode) ∧
    (∀ (input : Bytes) (offset : Nat), offset < input.length →
      0xf7 < input.getD offset 0 → input.getD offset 0 < 256 →
      offset + 1 + (input.getD offset 0 - 0xf7) > input.length →
      decode_rlp_item input offset = .error .InvalidRlpNode) ∧
    (∀ (input : Bytes) (offset len : Nat), offset < input.length →
      0xb7 < input.getD offset 0 → input.getD offset 0 ≤ 0xbf →
      ¬(offset + 1 + (input.getD offset 0 - 0xb7) > input.length) →
      read_be_usize (listSlice input (offset + 1)
        (offset + 1 + (input.getD offset 0 - 0xb7))) = .ok len →
      offset + 1 + (input.getD offset 0 - 0xb7) + len < u64Mod →
      offset + 1 + (input.getD offset 0 - 0xb7) + len > input.length →
      decode_rlp_item input offset = .error .InvalidRlpNode) ∧
    (∀ (input : Bytes) (offset len : Nat), offset < input.length →
      0xf7 < input.getD offset 0 → input.getD offset 0 < 256 →
      ¬(offset + 1 + (input.getD offset 0 - 0xf7) > input.length) →
      read_be_usize (listSlice input (offset + 1)
        (offset + 1 + (input.getD offset 0 - 0xf7))) = .ok len →
      offset + 1 + (input.getD offset 0 - 0xf7) + len < u64Mod →
      offset + 1 + (input.getD offset 0 - 0xf7) + len > input.length →
      decode_rlp_item input offset = .error .InvalidRlpNode) ∧
    (∀ l : Bytes, l.length = 0 ∨ l.length > 8 →
      read_be_usize l = .error .InvalidRlpNode) ∧
    decode_rlp_list_payload_items [0xc2, 0xb8, 0x00] = .ok [[]] := by
  refine ⟨?_, ?_, ?_, ?_, ?_, ?_, ?_, ?_, ?_, ?_, ?_, by decide⟩
  · intro input top h hlist
    unfold decode_rlp_list_payload_items
    rw [h]
    dsimp only
    rw [if_pos (Or.inl (by simp [hlist]))]
  · intro input top h hne
    unfold decode_rlp_list_payload_items
    rw [h]
    dsimp only
    rw [if_pos (Or.inr hne)]
  · intro input e h
    unfold decode_rlp_list_payload_items
    rw [h]
  · intro input fuel cursor endPos item hlt hitem hlist
    cases fuel with
    | zero =>
      unfold rlpItems
      rw [if_pos hlt]
    | succ fuel =>
      unfold rlpItems
      rw [if_pos hlt, hitem]
      simp only [hlist, if_pos]
  · intro input offset hoff hgt hle hover
    unfold decode_rlp_item
    rw [if_neg (by omega), if_neg (by omega), if_pos hle, if_pos hover]
  · intro input offset hoff hgt hle hover
    unfold decode_rlp_item
    rw [if_neg (by omega), if_neg (by omega), if_neg (by omega), if_neg (by omega),
      if_pos hle, if_pos hover]
  · intro input offset hoff hgt hle hover
    unfold decode_rlp_item
    rw [if_neg (by omega), if_neg (by omega), if_neg (by omega), if_pos hle, if_pos hover]
  · intro input offset hoff hgt hlt hover
    unfold decode_rlp_item
    rw [if_neg (by omega), if_neg (by omega), if_neg (by omega), if_neg (by omega),
      if_neg (by omega), if_pos hover]
  · intro input offset len hoff hgt hle hnotrunc hread _hnowrap hover
    unfold decode_rlp_item
    rw [if_neg (by omega), if_neg (by omega), if_neg (by omega), if_pos hle,
      if_neg hnotrunc, hread]
    simp only [if_pos hover]
  · intro input offset len hoff hgt hlt hnotrunc hread _hnowrap hover
    unfold decode_rlp_item
    rw [if_neg (by omega), if_neg (by omega), if_neg (by omega), if_neg (by omega),
      if_neg (by omega), if_neg hnotrunc, hread]
    simp only [if_pos hover]
  · intro l hl
    unfold read_be_usize
    rw [if_pos (by omega)]

/-- Witness for C4: one concrete malformed input per amended shape. -/
theorem C4_witness :
    decode_rlp_list_payload_items [0x81, 0x05] = .error .InvalidRlpNode ∧
    decode_rlp_list_payload_items [0xc1, 0x01, 0x02] = .error .InvalidRlpNode ∧
    decode_rlp_list_payload_items [0xc2, 0x01] = .error .InvalidRlpNode ∧
    rlpItems [0xc2, 0xc1, 0x01] 4 1 3 = .error .InvalidRlpNode ∧
    decode_rlp_item [0x82, 0x01] 0 = .error .InvalidRlpNode ∧
    decode_rlp_item [0xc1] 0 = .error .InvalidRlpNode ∧
    decode_rlp_item [0xb9, 0x05] 0 = .error .InvalidRlpNode ∧
    decode_rlp_item [0xf9, 0x05] 0 = .error .InvalidRlpNode ∧
    decode_rlp_item [0xb8, 0x05, 0x01] 0 = .error .InvalidRlpNode ∧
    decode_rlp_item [0xf8, 0x05, 0x01] 0 = .error .InvalidRlpNode ∧
    read_be_usize [1, 2, 3, 4, 5, 6, 7, 8, 9] = .error .InvalidRlpNode :=
  ⟨C4_rlp_malformed_amended.1 [0x81, 0x05] ⟨false, 1, 1, 2⟩ (by decide) (by decide),
   C4_rlp_malformed_amended.2.1 [0xc1, 0x01, 0x02] ⟨true, 1, 1, 2⟩ (by decide) (by decide),
   C4_rlp_malformed_amended.2.2.1 [0xc2, 0x01] .InvalidRlpNode (by decide),
   C4_rlp_malformed_amended.2.2.2.1 [0xc2, 0xc1, 0x01] 4 1 3 ⟨true, 2, 1, 2⟩
     (by decide) (by decide) (by decide),
   C4_rlp_malformed_amended.2.2.2.2.1 [0x82, 0x01] 0 (by decide) (by decide) (by decide)
     (by decide),
   C4_rlp_malformed_amended.2.2.2.2.2.1 [0xc1] 0 (by decide) (by decide) (by decide)
     (by decide),
   C4_rlp_malformed_amended.2.2.2.2.2.2.1 [0xb9, 0x05] 0 (by decide) (by decide) (by decide)
     (by decide),
   C4_rlp_malformed_amended.2.2.2.2.2.2.2.1 [0xf9, 0x05] 0 (by decide) (by decide)
     (by decide) (by decide),
   C4_rlp_malformed_amended.2.2.2.2.2.2.2.2.1 [0xb8, 0x05, 0x01] 0 5 (by decide) (by decide)
     (by decide) (by decide) (by decide) (by decide) (by decide),
   C4_rlp_malformed_amended.2.2.2.2.2.2.2.2.2.1 [0xf8, 0x05, 0x01] 0 5 (by decide)
     (by decide) (by decide) (by decide) (by decide) (by decide) (by decide),
   C4_rlp_malformed_amended.2.2.2.2.2.2.2.2.2.2.1 [1, 2, 3, 4, 5, 6, 7, 8, 9]
     (by decide)⟩

/-! ## C5: empty child references during trie traversal -/

/-- Counterexample for C5: a single-node proof whose root is an extension node
    with an empty value/ref slot fails with `InvalidTriePath`, not (as the
    claim requires of every empty reference met mid-traversal)
    `MissingAccountValue`. -/
theorem C5_extension_empty_ref_counterexample :
    verify_account_proof_and_get_balance (keccak256 emptyRefExtensionNode) s1Address
      [emptyRefExtensionNode] = .error .InvalidTriePath ∧
    verify_account_proof_and_get_balance (keccak256 emptyRefExtensionNode) s1Address
      [emptyRefExtensionNode] ≠ .error .MissingAccountValue := by
  refine ⟨by decide, ?_⟩
  intro h
  rw [show verify_account_proof_and_get_balance (keccak256 emptyRefExtensionNode) s1Address
      [emptyRefExtensionNode] = .error .InvalidTriePath from by decide] at h
  exact ClaimValidationError.noConfusion (Except.error.inj h)

/-- C5 (amended): when the node reference check passes and a branch node's
    selected child slot is empty mid-traversal, the verifier fails with
    `MissingAccountValue`; when an extension node's value/ref slot is empty it
    fails with `InvalidTriePath` instead; either error propagates through
    `verify_account_proof_and_get_balance`. -/
theorem C5_empty_reference_amended :
    (∀ (keyNib : List Nat) (root : Bytes) (total : Nat) (node : Bytes) (rest : List Bytes)
      (depth ki : Nat) (eref : Option Bytes) (elements : List Bytes),
      ((depth = 0 ∧ keccak256 node = root) ∨
        (depth ≠ 0 ∧ ∃ r, eref = some r ∧ node_matches_reference node r = true)) →
      decode_rlp_list_payload_items node = .ok elements →
      elements.length = 17 →
      ki ≠ keyNib.length →
      elements.getD (keyNib.getD ki 0) [] = [] →
      verifyLoop keyNib root total (node :: rest) depth ki eref =
        .error .MissingAccountValue) ∧
    (∀ (keyNib : List Nat) (root : Bytes) (total : Nat) (node : Bytes) (rest : List Bytes)
      (depth ki : Nat) (eref : Option Bytes) (elements : List Bytes) (pnib : List Nat),
      ((depth = 0 ∧ keccak256 node = root) ∨
        (depth ≠ 0 ∧ ∃ r, eref = some r ∧ node_matches_reference node r = true)) →
      decode_rlp_list_payload_items node = .ok elements →
      elements.length = 2 →
      decode_compact_nibbles (elements.getD 0 []) = .ok (false, pnib) →
      ¬(ki + pnib.length > keyNib.length) →
      listSlice keyNib ki (ki + pnib.length) = pnib →
      elements.getD 1 [] = [] →
      verifyLoop keyNib root total (node :: rest) depth ki eref =
        .error .InvalidTriePath) ∧
    (∀ (root addr : Bytes) (nodes : List Bytes) (e : ClaimValidationError),
      verifyLoop (hash_to_nibbles (keccak256 addr)) root nodes.length nodes 0 0 none =
        .error e →
      verify_account_proof_and_get_balance root addr nodes = .error e) := by
  refine ⟨?_, ?_, ?_⟩
  · intro keyNib root total node rest depth ki eref elements href hdec h17 hki hempty
    simp only [List.getD, List.get?_eq_getElem?] at hempty
    rcases href with ⟨hd0, hkec⟩ | ⟨hdne, r, herf, hmr⟩
    · subst hd0
      simp [verifyLoop, nodeRefCheck, hkec, hdec, h17, hki, hempty]
    · simp [verifyLoop, nodeRefCheck, hdne, herf, hmr, hdec, h17, hki, hempty]
  · intro keyNib root total node rest depth ki eref elements pnib href hdec h2 hdc hfit
      hsl hempty
    simp only [List.getD, List.get?_eq_getElem?] at hempty hdc
    have h0lt : 0 < elements.length := by omega
    have h1lt : 1 < elements.length := by omega
    simp only [List.getElem?_eq_getElem h0lt, Option.getD_some] at hdc
    simp only [List.getElem?_eq_getElem h1lt, Option.getD_some] at hempty
    rcases href with ⟨hd0, hkec⟩ | ⟨hdne, r, herf, hmr⟩
    · subst hd0
      simp [verifyLoop, nodeRefCheck, hkec, hdec, h2, hdc, hfit, hsl, hempty]
    · simp [verifyLoop, nodeRefCheck, hdne, herf, hmr, hdec, h2, hdc, hfit, hsl, hempty]
  · intro root addr nodes e h
    simp [verify_account_proof_and_get_balance, h]

/-- Witness for C5: the all-empty branch node yields `MissingAccountValue`,
    the empty-ref extension node yields `InvalidTriePath`. -/
theorem C5_witness :
    verifyLoop (hash_to_nibbles (keccak256 s1Address)) (keccak256 emptyBranchNode) 1
      [emptyBranchNode] 0 0 none = .error .MissingAccountValue ∧
    verifyLoop (hash_to_nibbles (keccak256 s1Address)) (keccak256 emptyRefExtensionNode) 1
      [emptyRefExtensionNode] 0 0 none = .error .InvalidTriePath :=
  ⟨C5_empty_reference_amended.1 (hash_to_nibbles (keccak256 s1Address))
      (keccak256 emptyBranchNode) 1 emptyBranchNode [] 0 0 none
      (List.replicate 17 []) (Or.inl ⟨rfl, rfl⟩) (by decide) (by decide) (by decide)
      (by decide),
   C5_empty_reference_amended.2.1 (hash_to_nibbles (keccak256 s1Address))
      (keccak256 emptyRefExtensionNode) 1 emptyRefExtensionNode [] 0 0 none
      [[0x00], []] [] (Or.inl ⟨rfl, rfl⟩) (by decide) (by decide) (by decide) (by decide)
      (by decide) (by decide)⟩

/-! ## C6: the step-2 totals scan -/

theorem sumChecked_zero (l : List Nat) (acc i : Nat) (hi : i < l.length)
    (hz : l.getD i 0 = 0) (hnz : ∀ j, j < i → l.getD j 0 ≠ 0)
    (hsum : acc + (l.take i).sum < u128Mod) :
    sumChecked l acc = .error .InactiveNoteHasZeroAmount := by
  induction l generalizing acc i with
  | nil => simp at hi
  | cons a rest ih =>
    cases i with
    | zero =>
      simp only [List.getD_cons_zero] at hz
      simp [sumChecked, hz]
    | succ k =>
      have ha : a ≠ 0 := by
        have := hnz 0 (Nat.succ_pos k)
        simpa using this
      have hk : k < rest.length := by simp at hi; omega
      have hzr : rest.getD k 0 = 0 := by simpa using hz
      have hnzr : ∀ j, j < k → rest.getD j 0 ≠ 0 := by
        intro j hj
        have := hnz (j + 1) (by omega)
        simpa using this
      have htk : (List.take (k + 1) (a :: rest)).sum = a + (rest.take k).sum := by simp
      have hacc : acc + a < u128Mod := by omega
      simp only [sumChecked, if_neg ha, if_pos hacc]
      exact ih (acc + a) k hk hzr hnzr (by omega)

theorem sumChecked_overflow (l : List Nat) (acc j : Nat) (hj : j < l.length)
    (hnz : ∀ k, k ≤ j → l.getD k 0 ≠ 0)
    (hpre : acc + (l.take j).sum < u128Mod)
    (hover : acc + (l.take (j + 1)).sum ≥ u128Mod) :
    sumChecked l acc = .error .TotalAmountExceeded := by
  induction l generalizing acc j with
  | nil => simp at hj
  | cons a rest ih =>
    have ha : a ≠ 0 := by
      have := hnz 0 (Nat.zero_le j)
      simpa using this
    cases j with
    | zero =>
      have h1 : (List.take (0 + 1) (a :: rest)).sum = a := by simp
      have hacc : ¬(acc + a < u128Mod) := by omega
      simp only [sumChecked, if_neg ha, if_neg hacc]
    | succ k =>
      have htk : (List.take (k + 1) (a :: rest)).sum = a + (rest.take k).sum := by simp
      have htk2 : (List.take (k + 1 + 1) (a :: rest)).sum = a + (rest.take (k + 1)).sum := by
        simp
      have hacc : acc + a < u128Mod := by omega
      simp only [sumChecked, if_neg ha, if_pos hacc]
      refine ih (acc + a) k (by simp at hj; omega) ?_ (by omega) (by omega)
      intro m hm
      have := hnz (m + 1) (by omega)
      simpa using this

theorem sumChecked_ok (l : List Nat) (acc : Nat)
    (hnz : ∀ i, i < l.length → l.getD i 0 ≠ 0) (hsum : acc + l.sum < u128Mod) :
    sumChecked l acc = .ok (acc + l.sum) := by
  induction l generalizing acc with
  | nil => simp [sumChecked]
  | cons a rest ih =>
    have ha : a ≠ 0 := by
      have := hnz 0 (by simp)
      simpa using this
    have hs : (a :: rest).sum = a + rest.sum := by simp
    have hacc : acc + a < u128Mod := by omega
    simp only [sumChecked, if_neg ha, if_pos hacc]
    rw [ih (acc + a) (fun i hi => by
        have := hnz (i + 1) (by simp; omega)
        simpa using this)
      (by omega)]
    congr 1
    omega

theorem readBeChecked_err (l : Bytes) (acc : Nat) (e : ClaimValidationError)
    (h : readBeChecked l acc = .error e) : e = .InvalidRlpNode := by
  induction l generalizing acc with
  | nil => exact Except.noConfusion h
  | cons b rest ih =>
    unfold readBeChecked at h
    split_ifs at h with h1 h2
    · exact ih _ h
    · exact (Except.error.inj h).symm
    · exact (Except.error.inj h).symm

theorem read_be_usize_err (l : Bytes) (e : ClaimValidationError)
    (h : read_be_usize l = .error e) : e = .InvalidRlpNode := by
  unfold read_be_usize at h
  split_ifs at h with h1
  · exact (Except.error.inj h).symm
  · exact readBeChecked_err l 0 e h

theorem decode_rlp_item_err (input : Bytes) (offset : Nat) (e : ClaimValidationError)
    (h : decode_rlp_item input offset = .error e) : e = .InvalidRlpNode := by
  unfold decode_rlp_item at h
  repeat' split at h
  all_goals try exact (Except.error.inj h).symm
  all_goals try exact Except.noConfusion h
  all_goals (rename_i e' heq; cases Except.error.inj h; exact read_be_usize_err _ _ heq)

theorem rlpItems_err (input : Bytes) (fuel cursor endPos : Nat) (e : ClaimValidationError)
    (h : rlpItems input fuel cursor endPos = .error e) : e = .InvalidRlpNode := by
  induction fuel generalizing cursor with
  | zero =>
    unfold rlpItems at h
    split_ifs at h <;>
      first
        | exact (Except.error.inj h).symm
        | exact Except.noConfusion h
  | succ fuel ih =>
    unfold rlpItems at h
    by_cases hc : cursor < endPos
    · rw [if_pos hc] at h
      cases hdec : decode_rlp_item input cursor with
      | error e1 =>
        simp only [hdec] at h
        cases Except.error.inj h
        exact decode_rlp_item_err _ _ _ hdec
      | ok item =>
        simp only [hdec] at h
        by_cases hl : item.is_list = true
        · rw [if_pos hl] at h
          exact (Except.error.inj h).symm
        · rw [if_neg hl] at h
          by_cases hpe : item.payload_offset + item.payload_len > input.length
          · rw [if_pos hpe] at h
            exact (Except.error.inj h).symm
          · rw [if_neg hpe] at h
            cases hrec : rlpItems input fuel (cursor + item.total_len) endPos with
            | error e2 =>
              simp only [hrec] at h
              cases Except.error.inj h
              exact ih _ hrec
            | ok rest' =>
              simp only [hrec] at h
              exact Except.noConfusion h
    · rw [if_neg hc] at h
      split_ifs at h
      all_goals first
        | exact (Except.error.inj h).symm
        | exact Except.noConfusion h

theorem decode_rlp_list_err (input : Bytes) (e : ClaimValidationError)
    (h : decode_rlp_list_payload_items input = .error e) : e = .InvalidRlpNode := by
  unfold decode_rlp_list_payload_items at h
  cases hdec : decode_rlp_item input 0 with
  | error e1 =>
    simp only [hdec] at h
    cases Except.error.inj h
    exact decode_rlp_item_err _ _ _ hdec
  | ok top =>
    simp only [hdec] at h
    split_ifs at h
    all_goals first
      | exact (Except.error.inj h).symm
      | exact rlpItems_err _ _ _ _ _ h

theorem decode_compact_err (enc : Bytes) (e : ClaimValidationError)
    (h : decode_compact_nibbles enc = .error e) : e = .InvalidTriePath := by
  cases enc with
  | nil => exact (Except.error.inj h).symm
  | cons b0 rest =>
    simp only [decode_compact_nibbles] at h
    split_ifs at h
    all_goals first
      | exact (Except.error.inj h).symm
      | exact Except.noConfusion h

theorem decode_account_balance_err (a : Bytes) (e : ClaimValidationError)
    (h : decode_account_balance a = .error e) :
    e = .InvalidRlpNode ∨ e = .InvalidAccountValue := by
  unfold decode_account_balance at h
  cases hdec : decode_rlp_list_payload_items a with
  | error e1 =>
    simp only [hdec] at h
    cases Except.error.inj h
    exact Or.inl (decode_rlp_list_err _ _ hdec)
  | ok fields =>
    simp only [hdec] at h
    split_ifs at h
    all_goals first
      | exact Or.inr (Except.error.inj h).symm
      | exact Except.noConfusion h

theorem nodeRefCheck_err (node root : Bytes) (depth : Nat) (eref : Option Bytes)
    (e : ClaimValidationError) (h : nodeRefCheck node root depth eref = .error e) :
    e = .InvalidNodeReference ∨ e = .InvalidTriePath := by
  unfold nodeRefCheck at h
  repeat' split at h
  all_goals try exact Or.inl (Except.error.inj h).symm
  all_goals try exact Or.inr (Except.error.inj h).symm
  all_goals exact Except.noConfusion h

theorem verifyLoop_not_totals (keyNib : List Nat) (root : Bytes) (total : Nat)
    (nodes : List Bytes) :
    ∀ (depth ki : Nat) (eref : Option Bytes) (e : ClaimValidationError),
    verifyLoop keyNib root total nodes depth ki eref = .error e →
    e ≠ .InactiveNoteHasZeroAmount ∧ e ≠ .TotalAmountExceeded := by
  induction nodes with
  | nil =>
    intro depth ki eref e h
    unfold verifyLoop at h
    cases Except.error.inj h
    exact (by decide)
  | cons node rest ih =>
    intro depth ki eref e h
    unfold verifyLoop at h
    cases hrc : nodeRefCheck node root depth eref with
    | error e1 =>
      simp only [hrc] at h
      cases Except.error.inj h
      rcases nodeRefCheck_err _ _ _ _ _ hrc with h' | h' <;> (cases h'; exact (by decide))
    | ok u =>
      cases u
      simp only [hrc] at h
      cases hdec : decode_rlp_list_payload_items node with
      | error e1 =>
        simp only [hdec] at h
        cases Except.error.inj h
        cases decode_rlp_list_err _ _ hdec
        exact (by decide)
      | ok elements =>
        simp only [hdec] at h
        by_cases h17 : elements.length = 17
        · rw [if_pos h17] at h
          by_cases hki : ki = keyNib.length
          · rw [if_pos hki] at h
            split_ifs at h
            all_goals first
              | (cases Except.error.inj h; exact (by decide))
              | exact Except.noConfusion h
          · rw [if_neg hki] at h
            split_ifs at h
            all_goals first
              | (cases Except.error.inj h; exact (by decide))
              | exact ih _ _ _ _ h
        · rw [if_neg h17] at h
          by_cases h2 : elements.length = 2
          · rw [if_pos h2] at h
            cases hdc : decode_compact_nibbles (elements.getD 0 []) with
            | error e1 =>
              simp only [hdc] at h
              cases Except.error.inj h
              cases decode_compact_err _ _ hdc
              exact (by decide)
            | ok pr =>
              obtain ⟨isleaf, pnib⟩ := pr
              simp only [hdc] at h
              split_ifs at h <;>
                first
                  | (cases Except.error.inj h; exact (by decide))
                  | exact Except.noConfusion h
                  | exact ih _ _ _ _ h
          · rw [if_neg h2] at h
            cases Except.error.inj h
            exact (by decide)

theorem verify_account_proof_not_totals (root addr : Bytes) (nodes : List Bytes)
    (e : ClaimValidationError)
    (h : verify_account_proof_and_get_balance root addr nodes = .error e) :
    e ≠ .InactiveNoteHasZeroAmount ∧ e ≠ .TotalAmountExceeded := by
  unfold verify_account_proof_and_get_balance at h
  cases hv : verifyLoop (hash_to_nibbles (keccak256 addr)) root nodes.length nodes 0 0
      none with
  | error e1 =>
    simp only [hv] at h
    cases Except.error.inj h
    exact verifyLoop_not_totals _ _ _ _ _ _ _ _ hv
  | ok account =>
    simp only [hv] at h
    rcases decode_account_balance_err _ _ h with h' | h' <;> (cases h'; exact (by decide))

theorem checkNodes_err (nodes : List Bytes) :
    ∀ (lens : List Nat) (e : ClaimValidationError), checkNodes nodes lens = .error e →
    e = .ProofShapeMismatch ∨ e = .ProofNodeTooLarge := by
  induction nodes with
  | nil =>
    intro lens e h
    cases lens <;> exact Except.noConfusion h
  | cons node rest ih =>
    intro lens e h
    cases lens with
    | nil => exact Except.noConfusion h
    | cons d ds =>
      unfold checkNodes at h
      split_ifs at h
      · exact Or.inl (Except.error.inj h).symm
      · exact Or.inr (Except.error.inj h).symm
      · exact ih ds e h

theorem compute_notes_hash_err (n : Nat) (amounts : List Nat) (rhs : List Bytes)
    (e : ClaimValidationError) (h : compute_notes_hash n amounts rhs = .error e) :
    e = .InvalidInputLengths := by
  unfold compute_notes_hash at h
  split_ifs at h
  all_goals first
    | exact (Except.error.inj h).symm
    | exact Except.noConfusion h

theorem parse_header_not_totals (h' : Bytes) (n : Nat) (blob : Bytes)
    (e : ClaimValidationError)
    (h : parse_state_root_from_block_header h' n blob = .error e) :
    e ≠ .InactiveNoteHasZeroAmount ∧ e ≠ .TotalAmountExceeded := by
  unfold parse_state_root_from_block_header at h
  split_ifs at h with h1
  · cases Except.error.inj h; exact (by decide)
  · cases hdec : decode_rlp_list_payload_items blob with
    | error e1 =>
      simp only [hdec] at h
      cases Except.error.inj h
      cases decode_rlp_list_err _ _ hdec
      exact (by decide)
    | ok fields =>
      simp only [hdec] at h
      split_ifs at h
      · cases Except.error.inj h; exact (by decide)
      · cases hq : parse_u64_from_rlp_quantity (fields.getD 8 []) with
        | none =>
          simp only [hq] at h
          cases Except.error.inj h
          exact (by decide)
        | some m =>
          simp only [hq] at h
          split_ifs at h
          all_goals first
            | (cases Except.error.inj h; exact (by decide))
            | exact Except.noConfusion h

theorem evaluateFromTotals_not_totals (input : ClaimInput) (total : Nat)
    (hle : ¬total > MAX_TOTAL_WEI) (e : ClaimValidationError)
    (h : evaluateFromTotals input total = .error e) :
    e ≠ .InactiveNoteHasZeroAmount ∧ e ≠ .TotalAmountExceeded := by
  unfold evaluateFromTotals at h
  rw [if_neg hle] at h
  split_ifs at h
  · cases Except.error.inj h; exact (by decide)
  · cases Except.error.inj h; exact (by decide)
  · cases hcn : checkNodes input.proof_nodes input.proof_node_lengths with
    | error e1 =>
      simp only [hcn] at h
      cases Except.error.inj h
      rcases checkNodes_err _ _ _ hcn with h' | h' <;> (cases h'; exact (by decide))
    | ok u =>
      cases u
      simp only [hcn] at h
      cases hnh : compute_notes_hash input.note_count input.amounts
          input.recipient_hashes with
      | error e1 =>
        simp only [hnh] at h
        cases Except.error.inj h
        cases compute_notes_hash_err _ _ _ _ hnh
        exact (by decide)
      | ok nh =>
        simp only [hnh] at h
        cases hph : parse_state_root_from_block_header input.block_hash
            input.block_number input.block_header_rlp with
        | error e1 =>
          simp only [hph] at h
          cases Except.error.inj h
          exact parse_header_not_totals _ _ _ _ hph
        | ok sr =>
          simp only [hph] at h
          cases hvp : verify_account_proof_and_get_balance sr
              (derive_target_address input.secret input.chain_id nh)
              input.proof_nodes with
          | error e1 =>
            simp only [hvp] at h
            cases Except.error.inj h
            exact verify_account_proof_not_totals _ _ _ _ hvp
          | ok bal =>
            simp only [hvp] at h
            split_ifs at h
            all_goals first
              | (cases Except.error.inj h; exact (by decide))
              | exact Except.noConfusion h

theorem getD_take (l : List Nat) (n i : Nat) (h : i < n) :
    (l.take n).getD i 0 = l.getD i 0 := by
  simp [List.getD, List.getElem?_take, h]

/-- With the step-1 checks satisfied, `evaluate_claim` is the totals scan
    followed by the rest of the pipeline. -/
theorem evaluate_claim_step2 (input : ClaimInput)
    (h1 : input.note_count ≠ 0) (h2 : input.note_count ≤ MAX_NOTES)
    (h3 : input.note_index < input.note_count)
    (h4 : input.amounts.length ≥ input.note_count)
    (h5 : input.recipient_hashes.length ≥ input.note_count)
    (h6 : input.amounts.getD input.note_index 0 = input.amount)
    (h7 : input.recipient_hashes.getD input.note_index [] =
      compute_recipient_hash input.recipient) :
    evaluate_claim input =
      match sumChecked (input.amounts.take input.note_count) 0 with
      | .error e => .error e
      | .ok total_amount => evaluateFromTotals input total_amount := by
  unfold evaluate_claim
  simp only [List.getD, List.get?_eq_getElem?] at h6 h7
  rw [if_neg (by omega), if_neg (by omega), if_neg (by omega), if_neg (by simp [h6]),
    if_neg (by simp [h7])]

/-- C6 (amended): with the step-1 checks satisfied and `u128` amounts, the
    ascending step-2 scan returns `InactiveNoteHasZeroAmount` at the first
    zero slot reached before any `u128` overflow; it returns
    `TotalAmountExceeded` when the running sum overflows `u128` before any
    zero slot is reached, and also when the scan completes with a total above
    `MAX_TOTAL_WEI`; when every slot is non-zero and the total is within the
    cap, neither of the two errors is the outcome. -/
theorem C6_totals_amended (input : ClaimInput)
    (h1 : input.note_count ≠ 0) (h2 : input.note_count ≤ MAX_NOTES)
    (h3 : input.note_index < input.note_count)
    (h4 : input.amounts.length ≥ input.note_count)
    (h5 : input.recipient_hashes.length ≥ input.note_count)
    (h6 : input.amounts.getD input.note_index 0 = input.amount)
    (h7 : input.recipient_hashes.getD input.note_index [] =
      compute_recipient_hash input.recipient) :
    (∀ i, i < input.note_count → input.amounts.getD i 0 = 0 →
      (∀ j, j < i → input.amounts.getD j 0 ≠ 0) →
      (input.amounts.take i).sum < u128Mod →
      evaluate_claim input = .error .InactiveNoteHasZeroAmount) ∧
    (∀ j, j < input.note_count → (∀ k, k ≤ j → input.amounts.getD k 0 ≠ 0) →
      (input.amounts.take j).sum < u128Mod →
      (input.amounts.take (j + 1)).sum ≥ u128Mod →
      evaluate_claim input = .error .TotalAmountExceeded) ∧
    ((∀ i, i < input.note_count → input.amounts.getD i 0 ≠ 0) →
      (input.amounts.take input.note_count).sum < u128Mod →
      (input.amounts.take input.note_count).sum > MAX_TOTAL_WEI →
      evaluate_claim input = .error .TotalAmountExceeded) ∧
    ((∀ i, i < input.note_count → input.amounts.getD i 0 ≠ 0) →
      (input.amounts.take input.note_count).sum ≤ MAX_TOTAL_WEI →
      evaluate_claim input ≠ .error .InactiveNoteHasZeroAmount ∧
      evaluate_claim input ≠ .error .TotalAmountExceeded) := by
  have hred := evaluate_claim_step2 input h1 h2 h3 h4 h5 h6 h7
  have hlen : (input.amounts.take input.note_count).length = input.note_count := by
    simp [List.length_take]
    omega
  have htt : ∀ i : Nat, i ≤ input.note_count →
      (input.amounts.take input.note_count).take i = input.amounts.take i := by
    intro i hi
    rw [List.take_take, min_eq_left hi]
  refine ⟨?_, ?_, ?_, ?_⟩
  · intro i hi hz hnz hsum
    rw [hred, sumChecked_zero (input.amounts.take input.note_count) 0 i (by omega)
      (by rw [getD_take _ _ _ hi]; exact hz)
      (fun j hj => by rw [getD_take _ _ _ (by omega)]; exact hnz j hj)
      (by rw [htt i (by omega)]; omega)]
  · intro j hj hnz hpre hover
    rw [hred, sumChecked_overflow (input.amounts.take input.note_count) 0 j (by omega)
      (fun k hk => by rw [getD_take _ _ _ (by omega)]; exact hnz k hk)
      (by rw [htt j (by omega)]; omega)
      (by rw [htt (j + 1) (by omega)]; omega)]
  · intro hnz hlt hgt
    rw [hred, sumChecked_ok (input.amounts.take input.note_count) 0
      (fun i hi => by rw [getD_take _ _ _ (by omega)]; exact hnz i (by omega))
      (by omega)]
    dsimp only
    unfold evaluateFromTotals
    rw [if_pos (by omega)]
  · intro hnz hle
    have hmax : MAX_TOTAL_WEI < u128Mod := by norm_num [MAX_TOTAL_WEI, u128Mod]
    rw [hred, sumChecked_ok (input.amounts.take input.note_count) 0
      (fun i hi => by rw [getD_take _ _ _ (by omega)]; exact hnz i (by omega))
      (by omega)]
    dsimp only
    constructor
    · intro hcontra
      exact (evaluateFromTotals_not_totals input _ (by omega) _ hcontra).1 rfl
    · intro hcontra
      exact (evaluateFromTotals_not_totals input _ (by omega) _ hcontra).2 rfl

/-- Counterexample for C6: with `amounts = [2^128 - 1, 1, 0]` the checked
    addition overflows at index 1, before the zero at index 2 is scanned, so
    `evaluate_claim` returns `TotalAmountExceeded` even though a zero amount
    exists below `noteCount` — the claim requires `InactiveNoteHasZeroAmount`
    whenever such a zero exists. -/
theorem C6_overflow_before_zero_counterexample :
    overflowBeforeZeroInput.amounts.getD 2 0 = 0 ∧
    2 < overflowBeforeZeroInput.note_count ∧
    evaluate_claim overflowBeforeZeroInput = .error .TotalAmountExceeded ∧
    evaluate_claim overflowBeforeZeroInput ≠ .error .InactiveNoteHasZeroAmount := by
  refine ⟨by decide, by decide, by decide, ?_⟩
  intro h
  rw [show evaluate_claim overflowBeforeZeroInput = .error .TotalAmountExceeded from
    by decide] at h
  exact ClaimValidationError.noConfusion (Except.error.inj h)

/-- Witness for C6: a zero at the first slot yields
    `InactiveNoteHasZeroAmount`; the overflow fixture yields
    `TotalAmountExceeded`. -/
theorem C6_witness :
    evaluate_claim zeroAmountInput = .error .InactiveNoteHasZeroAmount ∧
    evaluate_claim overflowBeforeZeroInput = .error .TotalAmountExceeded :=
  ⟨(C6_totals_amended zeroAmountInput (by decide) (by decide) (by decide) (by decide)
      (by decide) (by decide) (by decide)).1 0 (by decide) (by decide)
      (fun j hj => absurd hj (by omega)) (by decide),
   (C6_totals_amended overflowBeforeZeroInput (by decide) (by decide) (by decide)
      (by decide) (by decide) (by decide) (by decide)).2.1 1 (by decide) (by decide)
      (by decide) (by decide)⟩

/-! ## C1: the single-leaf account proof.  First, properties of the minimal
big-endian length encoding and its round-trip through `read_be_usize`. -/

theorem beVal_append_singleton (l : Bytes) (b : Nat) :
    beVal (l ++ [b]) = beVal l * 256 + b := by
  simp [beVal, List.foldl_append]

theorem beVal_reverse_eq_fromLeBytes (l : Bytes) : beVal l.reverse = fromLeBytes l := by
  induction l with
  | nil => rfl
  | cons b rest ih =>
    simp only [List.reverse_cons, beVal_append_singleton, ih, fromLeBytes_cons]

theorem leDigits_wf (fuel v : Nat) : wfBytes (leDigits fuel v) := by
  induction fuel generalizing v with
  | zero => intro b hb; simp [leDigits] at hb
  | succ fuel ih =>
    intro b hb
    unfold leDigits at hb
    split_ifs at hb with h0
    · simp at hb
    · rcases List.mem_cons.mp hb with h | h
      · subst h; exact Nat.mod_lt _ (by norm_num)
      · exact ih _ b h

theorem fromLeBytes_leDigits (fuel v : Nat) (h : v < 256 ^ fuel) :
    fromLeBytes (leDigits fuel v) = v := by
  induction fuel generalizing v with
  | zero =>
    simp [leDigits, fromLeBytes]
    omega
  | succ fuel ih =>
    unfold leDigits
    split_ifs with h0
    · simp [fromLeBytes, h0]
    · have hdiv : v / 256 < 256 ^ fuel := by
        rw [Nat.div_lt_iff_lt_mul (by norm_num)]
        calc v < 256 ^ (fuel + 1) := h
          _ = 256 ^ fuel * 256 := by ring
      rw [fromLeBytes_cons, ih _ hdiv, Nat.mul_comm, Nat.div_add_mod]

theorem leDigits_length_le (fuel k : Nat) :
    ∀ v, v < 256 ^ k → k ≤ fuel → (leDigits fuel v).length ≤ k := by
  induction fuel generalizing k with
  | zero => intro v _ _; simp [leDigits]
  | succ fuel ih =>
    intro v hv hk
    unfold leDigits
    split_ifs with h0
    · simp
    · cases k with
      | zero => omega
      | succ k' =>
        have hdiv : v / 256 < 256 ^ k' := by
          rw [Nat.div_lt_iff_lt_mul (by norm_num)]
          calc v < 256 ^ (k' + 1) := hv
            _ = 256 ^ k' * 256 := by ring
        have := ih k' (v / 256) hdiv (by omega)
        simp only [List.length_cons]
        omega

theorem usize_to_be_bytes_wf (v : Nat) : wfBytes (usize_to_be_bytes v) := by
  unfold usize_to_be_bytes
  split_ifs with h0
  · intro b hb; simp at hb; omega
  · intro b hb
    rw [List.mem_reverse] at hb
    exact leDigits_wf 16 v b hb

theorem usize_to_be_bytes_len_le (v : Nat) (hv : v < u64Mod) :
    (usize_to_be_bytes v).length ≤ 8 := by
  unfold usize_to_be_bytes
  split_ifs with h0
  · simp
  · rw [List.length_reverse]
    exact leDigits_length_le 16 8 v (by rw [show (256 : Nat) ^ 8 = u64Mod from pow256_8]; exact hv)
      (by norm_num)

theorem usize_to_be_bytes_ne_nil (v : Nat) : usize_to_be_bytes v ≠ [] := by
  unfold usize_to_be_bytes
  split_ifs with h0
  · simp
  · intro hc
    rw [List.reverse_eq_nil_iff] at hc
    unfold leDigits at hc
    rw [if_neg h0] at hc
    exact List.noConfusion hc

theorem beVal_usize_to_be_bytes (v : Nat) (hv : v < u64Mod) :
    beVal (usize_to_be_bytes v) = v := by
  unfold usize_to_be_bytes
  split_ifs with h0
  · simp [beVal, h0]
  · rw [beVal_reverse_eq_fromLeBytes]
    exact fromLeBytes_leDigits 16 v
      (lt_of_lt_of_le hv (by rw [← pow256_8]; exact Nat.pow_le_pow_right (by norm_num) (by norm_num)))

theorem readBeChecked_ok (l : Bytes) (acc : Nat) (hwf : wfBytes l) (hlen : l.length ≤ 8)
    (hacc : acc < 256 ^ (8 - l.length)) :
    readBeChecked l acc = .ok (l.foldl (fun a b => a * 256 + b) acc) := by
  induction l generalizing acc with
  | nil => rfl
  | cons b rest ih =>
    have hb : b < 256 := hwf b (List.mem_cons_self b rest)
    have hrest : rest.length ≤ 8 := by simp at hlen; omega
    have hexp : 256 ^ (8 - (b :: rest).length) * 256 ≤ 256 ^ (8 - rest.length) := by
      have hx : 8 - (b :: rest).length + 1 ≤ 8 - rest.length := by
        simp only [List.length_cons] at hlen ⊢
        omega
      calc 256 ^ (8 - (b :: rest).length) * 256 = 256 ^ (8 - (b :: rest).length + 1) := by
            ring
        _ ≤ 256 ^ (8 - rest.length) := Nat.pow_le_pow_right (by norm_num) hx
    have hstep : acc * 256 + b < 256 ^ (8 - rest.length) := by
      have hy : acc * 256 + b < (acc + 1) * 256 := by omega
      have h2 : (acc + 1) * 256 ≤ 256 ^ (8 - (b :: rest).length) * 256 :=
        Nat.mul_le_mul_right 256 hacc
      omega
    have hlt : 256 ^ (8 - rest.length) ≤ u64Mod := by
      unfold u64Mod
      calc (256 : Nat) ^ (8 - rest.length) ≤ 256 ^ 8 :=
            Nat.pow_le_pow_right (by norm_num) (by omega)
        _ = 2 ^ 64 := by norm_num
    have hmul : acc * 256 < u64Mod := by omega
    have hadd : acc * 256 + b < u64Mod := by omega
    unfold readBeChecked
    rw [if_pos hmul, if_pos hadd]
    exact ih (acc * 256 + b) (fun x hx => hwf x (List.mem_cons_of_mem b hx)) hrest hstep

theorem read_be_usize_roundtrip (v : Nat) (hv : v < u64Mod) :
    read_be_usize (usize_to_be_bytes v) = .ok v := by
  unfold read_be_usize
  rw [if_neg (by
    push_neg
    constructor
    · have := usize_to_be_bytes_ne_nil v
      intro hc
      exact this (List.length_eq_zero.mp hc)
    · have := usize_to_be_bytes_len_le v hv
      omega)]
  rw [readBeChecked_ok (usize_to_be_bytes v) 0 (usize_to_be_bytes_wf v)
    (usize_to_be_bytes_len_le v hv) (Nat.pos_pow_of_pos _ (by norm_num))]
  rw [show (usize_to_be_bytes v).foldl (fun a b => a * 256 + b) 0 =
    beVal (usize_to_be_bytes v) from rfl]
  rw [beVal_usize_to_be_bytes v hv]

theorem getD_concat (pre mid post : Bytes) (i : Nat) (h : i < mid.length) :
    (pre ++ mid ++ post).getD (pre.length + i) 0 = mid.getD i 0 := by
  rw [getD_append_left' (pre ++ mid) post _ (by simp; omega), getD_append_right']

theorem concat_length (pre mid post : Bytes) :
    (pre ++ mid ++ post).length = pre.length + mid.length + post.length := by
  simp
  omega

theorem rlp_encode_bytes_ge (raw : Bytes) :
    raw.length ≤ (rlp_encode_bytes raw).length := by
  unfold rlp_encode_bytes
  split_ifs with hA hB
  · omega
  · simp
  · simp
    omega

theorem rlp_encode_bytes_pos (raw : Bytes) : 0 < (rlp_encode_bytes raw).length := by
  unfold rlp_encode_bytes
  split_ifs with hA hB
  · omega
  · simp
  · simp

/-- Decoding at the position of an encoded byte string inside a larger buffer
    returns a non-list item whose payload is exactly the raw bytes. -/
theorem decode_encode_string (pre post raw : Bytes) (hwf : wfBytes raw)
    (hlen : raw.length < u64Mod) :
    decode_rlp_item (pre ++ rlp_encode_bytes raw ++ post) pre.length =
      .ok ⟨false, pre.length + ((rlp_encode_bytes raw).length - raw.length), raw.length,
        (rlp_encode_bytes raw).length⟩ ∧
    listSlice (pre ++ rlp_encode_bytes raw ++ post)
      (pre.length + ((rlp_encode_bytes raw).length - raw.length))
      (pre.length + (rlp_encode_bytes raw).length) = raw := by
  by_cases hA : raw.length = 1 ∧ raw.getD 0 0 ≤ 0x7f
  · obtain ⟨h1, hb⟩ := hA
    obtain ⟨b, rfl⟩ : ∃ b, raw = [b] := by
      match raw, h1 with
      | [b], _ => exact ⟨b, rfl⟩
    have henc : rlp_encode_bytes [b] = [b] := by
      unfold rlp_encode_bytes
      rw [if_pos ⟨rfl, hb⟩]
    rw [henc]
    simp only [List.length_singleton, Nat.sub_self, Nat.add_zero]
    constructor
    · unfold decode_rlp_item
      rw [if_neg (by rw [concat_length]; simp; omega)]
      have hg : (pre ++ [b] ++ post).getD pre.length 0 = b := by
        have := getD_concat pre [b] post 0 (by simp)
        simpa using this
      rw [hg, if_pos (by simpa using hb)]
    · have := listSlice_mid pre [b] post
      simpa using this
  · by_cases hB : raw.length ≤ 55
    · have henc : rlp_encode_bytes raw = (0x80 + raw.length) :: raw := by
        unfold rlp_encode_bytes
        rw [if_neg hA, if_pos hB]
      rw [henc]
      have hsub : ((0x80 + raw.length) :: raw).length - raw.length = 1 := by simp
      rw [hsub]
      have hre : pre ++ (0x80 + raw.length) :: raw ++ post =
          (pre ++ [0x80 + raw.length]) ++ raw ++ post := by simp
      constructor
      · unfold decode_rlp_item
        rw [if_neg (by rw [concat_length]; simp; omega)]
        have hg : (pre ++ (0x80 + raw.length) :: raw ++ post).getD pre.length 0 =
            0x80 + raw.length := by
          have := getD_concat pre ((0x80 + raw.length) :: raw) post 0 (by simp)
          simpa using this
        rw [hg, if_neg (by omega), if_pos (by omega),
          if_neg (by rw [concat_length]; simp; omega)]
        simp only [Except.ok.injEq, RlpItem.mk.injEq, List.length_cons, List.length_append]
        refine ⟨?_, ?_, ?_, ?_⟩ <;> first | trivial | omega
      · rw [hre]
        have := listSlice_mid (pre ++ [0x80 + raw.length]) raw post
        rw [show (pre ++ [0x80 + raw.length]).length = pre.length + 1 by simp] at this
        rw [show pre.length + ((0x80 + raw.length) :: raw).length =
          pre.length + 1 + raw.length by simp; omega]
        exact this
    · have hgt : 55 < raw.length := by omega
      have henc : rlp_encode_bytes raw =
          (0xb7 + (usize_to_be_bytes raw.length).length) :: usize_to_be_bytes raw.length
            ++ raw := by
        unfold rlp_encode_bytes
        rw [if_neg hA, if_neg hB]
      have hk1 : 1 ≤ (usize_to_be_bytes raw.length).length := by
        have := usize_to_be_bytes_ne_nil raw.length
        cases hc : usize_to_be_bytes raw.length with
        | nil => exact absurd hc this
        | cons x xs => simp
      have hk8 : (usize_to_be_bytes raw.length).length ≤ 8 :=
        usize_to_be_bytes_len_le raw.length hlen
      rw [henc]
      have hlenenc :
          ((0xb7 + (usize_to_be_bytes raw.length).length) :: usize_to_be_bytes raw.length
            ++ raw).length =
          1 + (usize_to_be_bytes raw.length).length + raw.length := by
        simp
        omega
      have hsub :
          ((0xb7 + (usize_to_be_bytes raw.length).length) :: usize_to_be_bytes raw.length
            ++ raw).length - raw.length =
          1 + (usize_to_be_bytes raw.length).length := by
        rw [hlenenc]
        omega
      rw [hsub]
      have hre : pre ++ ((0xb7 + (usize_to_be_bytes raw.length).length) ::
          usize_to_be_bytes raw.length ++ raw) ++ post =
          (pre ++ [0xb7 + (usize_to_be_bytes raw.length).length]) ++
            usize_to_be_bytes raw.length ++ (raw ++ post) := by simp
      have hre2 : pre ++ ((0xb7 + (usize_to_be_bytes raw.length).length) ::
          usize_to_be_bytes raw.length ++ raw) ++ post =
          (pre ++ [0xb7 + (usize_to_be_bytes raw.length).length] ++
            usize_to_be_bytes raw.length) ++ raw ++ post := by simp
      constructor
      · unfold decode_rlp_item
        rw [if_neg (by rw [concat_length]; simp; omega)]
        have hg : (pre ++ ((0xb7 + (usize_to_be_bytes raw.length).length) ::
            usize_to_be_bytes raw.length ++ raw) ++ post).getD pre.length 0 =
            0xb7 + (usize_to_be_bytes raw.length).length := by
          have := getD_concat pre ((0xb7 + (usize_to_be_bytes raw.length).length) ::
            usize_to_be_bytes raw.length ++ raw) post 0 (by simp)
          simpa using this
        rw [hg, if_neg (by omega), if_neg (by omega), if_pos (by omega),
          if_neg (by rw [concat_length]; simp; omega)]
        have hslice : listSlice (pre ++ ((0xb7 + (usize_to_be_bytes raw.length).length) ::
            usize_to_be_bytes raw.length ++ raw) ++ post)
            (pre.length + 1)
            (pre.length + 1 + (0xb7 + (usize_to_be_bytes raw.length).length - 0xb7)) =
            usize_to_be_bytes raw.length := by
          rw [hre]
          have := listSlice_mid (pre ++ [0xb7 + (usize_to_be_bytes raw.length).length])
            (usize_to_be_bytes raw.length) (raw ++ post)
          rw [show (pre ++ [0xb7 + (usize_to_be_bytes raw.length).length]).length =
            pre.length + 1 by simp] at this
          rw [show 0xb7 + (usize_to_be_bytes raw.length).length - 0xb7 =
            (usize_to_be_bytes raw.length).length by omega]
          exact this
        rw [hslice, read_be_usize_roundtrip raw.length hlen]
        dsimp only
        rw [if_neg (by rw [concat_length]; simp; omega)]
        simp only [Except.ok.injEq, RlpItem.mk.injEq, List.length_cons, List.length_append]
        refine ⟨?_, ?_, ?_, ?_⟩ <;> first | trivial | omega
      · rw [hre2]
        have := listSlice_mid (pre ++ [0xb7 + (usize_to_be_bytes raw.length).length] ++
          usize_to_be_bytes raw.length) raw post
        rw [show (pre ++ [0xb7 + (usize_to_be_bytes raw.length).length] ++
          usize_to_be_bytes raw.length).length =
          pre.length + (1 + (usize_to_be_bytes raw.length).length) by simp; omega] at this
        rw [show pre.length + ((0xb7 + (usize_to_be_bytes raw.length).length) ::
          usize_to_be_bytes raw.length ++ raw).length =
          pre.length + (1 + (usize_to_be_bytes raw.length).length) + raw.length by
            rw [hlenenc]; omega]
        rw [show pre.length + (1 + (usize_to_be_bytes raw.length).length) =
          pre.length + 1 + (usize_to_be_bytes raw.length).length by omega] at this ⊢
        exact this

theorem flatten_length_ge (l : List Bytes) (h : ∀ x ∈ l, 0 < x.length) :
    l.length ≤ l.flatten.length := by
  induction l with
  | nil => simp
  | cons a as ih =>
    simp only [List.flatten_cons, List.length_cons, List.length_append]
    have ha := h a (by simp)
    have has := ih (fun x hx => h x (by simp [hx]))
    omega

/-- The child scan of `decode_rlp_list_payload_items` over a concatenation of
    encoded byte strings returns exactly the raw payloads. -/
theorem rlpItems_encode (raws : List Bytes) (pre post : Bytes) (fuel : Nat)
    (hwf : ∀ r ∈ raws, wfBytes r) (hlen : ∀ r ∈ raws, r.length < u64Mod)
    (hfuel : raws.length ≤ fuel) :
    rlpItems (pre ++ (raws.map rlp_encode_bytes).flatten ++ post) fuel pre.length
      (pre.length + (raws.map rlp_encode_bytes).flatten.length) = .ok raws := by
  induction raws generalizing pre fuel with
  | nil =>
    cases fuel with
    | zero => simp [rlpItems]
    | succ f => simp [rlpItems]
  | cons r rs ih =>
    cases fuel with
    | zero => simp at hfuel
    | succ f =>
      simp only [List.map_cons, List.flatten_cons]
      rw [show pre ++ (rlp_encode_bytes r ++ (rs.map rlp_encode_bytes).flatten) ++ post =
        pre ++ rlp_encode_bytes r ++ ((rs.map rlp_encode_bytes).flatten ++ post) by simp]
      have hdec := decode_encode_string pre ((rs.map rlp_encode_bytes).flatten ++ post) r
        (hwf r (by simp)) (hlen r (by simp))
      have hge := rlp_encode_bytes_ge r
      have hpos := rlp_encode_bytes_pos r
      rw [rlpItems]
      rw [if_pos (by simp only [List.length_append]; omega)]
      rw [hdec.1]
      dsimp only
      rw [if_neg (by simp), if_neg (by rw [concat_length]; simp only [List.length_append]; omega)]
      have hih := ih (pre ++ rlp_encode_bytes r) f
        (fun x hx => hwf x (List.mem_cons_of_mem r hx))
        (fun x hx => hlen x (List.mem_cons_of_mem r hx))
        (by simp only [List.length_cons] at hfuel; omega)
      rw [show (pre ++ rlp_encode_bytes r) ++ (rs.map rlp_encode_bytes).flatten ++ post =
        pre ++ rlp_encode_bytes r ++ ((rs.map rlp_encode_bytes).flatten ++ post) by
          simp] at hih
      rw [show (pre ++ rlp_encode_bytes r).length =
        pre.length + (rlp_encode_bytes r).length by simp] at hih
      rw [show pre.length + (rlp_encode_bytes r ++ (rs.map rlp_encode_bytes).flatten).length =
        pre.length + (rlp_encode_bytes r).length + (rs.map rlp_encode_bytes).flatten.length by
          simp [Nat.add_assoc]]
      rw [hih]
      dsimp only
      rw [show pre.length + ((rlp_encode_bytes r).length - r.length) + r.length =
        pre.length + (rlp_encode_bytes r).length by omega]
      rw [hdec.2]

/-- `decode_rlp_list_payload_items` applied to an encoded list of encoded byte
    strings recovers exactly the raw payloads. -/
theorem decode_rlp_list_encode (raws : List Bytes)
    (hwf : ∀ r ∈ raws, wfBytes r) (hlen : ∀ r ∈ raws, r.length < u64Mod)
    (hpl : (raws.map rlp_encode_bytes).flatten.length < u64Mod) :
    decode_rlp_list_payload_items (rlp_encode_list (raws.map rlp_encode_bytes)) =
      .ok raws := by
  have hfl : raws.length ≤ (raws.map rlp_encode_bytes).flatten.length := by
    have h := flatten_length_ge (raws.map rlp_encode_bytes)
      (by intro x hx
          obtain ⟨r, _, rfl⟩ := List.mem_map.mp hx
          exact rlp_encode_bytes_pos r)
    rw [List.length_map] at h
    exact h
  by_cases hP : (raws.map rlp_encode_bytes).flatten.length ≤ 55
  · have henc : rlp_encode_list (raws.map rlp_encode_bytes) =
        (0xc0 + (raws.map rlp_encode_bytes).flatten.length) ::
          (raws.map rlp_encode_bytes).flatten := by
      simp only [rlp_encode_list]
      rw [if_pos hP]
    rw [henc]
    have hdectop : decode_rlp_item
        ((0xc0 + (raws.map rlp_encode_bytes).flatten.length) ::
          (raws.map rlp_encode_bytes).flatten) 0 =
        .ok ⟨true, 1, (raws.map rlp_encode_bytes).flatten.length,
          1 + (raws.map rlp_encode_bytes).flatten.length⟩ := by
      unfold decode_rlp_item
      rw [if_neg (by simp only [List.length_cons]; omega), List.getD_cons_zero,
        if_neg (by omega), if_neg (by omega), if_neg (by omega), if_pos (by omega),
        if_neg (by simp only [List.length_cons]; omega)]
      simp only [Except.ok.injEq, RlpItem.mk.injEq]
      refine ⟨?_, ?_, ?_, ?_⟩ <;> first | trivial | omega
    unfold decode_rlp_list_payload_items
    rw [hdectop]
    dsimp only
    rw [if_neg (by
      intro hcon
      rcases hcon with h | h
      · exact h rfl
      · simp only [List.length_cons] at h; omega)]
    have hsc := rlpItems_encode raws [0xc0 + (raws.map rlp_encode_bytes).flatten.length] []
      (((0xc0 + (raws.map rlp_encode_bytes).flatten.length) ::
        (raws.map rlp_encode_bytes).flatten).length + 1) hwf hlen
      (by simp only [List.length_cons]; omega)
    rw [List.append_nil, List.singleton_append, List.length_singleton] at hsc
    exact hsc
  · have hP' : 55 < (raws.map rlp_encode_bytes).flatten.length := by omega
    have henc : rlp_encode_list (raws.map rlp_encode_bytes) =
        (0xf7 + (usize_to_be_bytes (raws.map rlp_encode_bytes).flatten.length).length) ::
          usize_to_be_bytes (raws.map rlp_encode_bytes).flatten.length ++
          (raws.map rlp_encode_bytes).flatten := by
      simp only [rlp_encode_list]
      rw [if_neg hP]
    have hk1 : 1 ≤ (usize_to_be_bytes (raws.map rlp_encode_bytes).flatten.length).length := by
      have h := usize_to_be_bytes_ne_nil (raws.map rlp_encode_bytes).flatten.length
      cases hc : usize_to_be_bytes (raws.map rlp_encode_bytes).flatten.length with
      | nil => exact absurd hc h
      | cons x xs => simp
    have hk8 : (usize_to_be_bytes (raws.map rlp_encode_bytes).flatten.length).length ≤ 8 :=
      usize_to_be_bytes_len_le (raws.map rlp_encode_bytes).flatten.length hpl
    rw [henc]
    have hdectop : decode_rlp_item
        ((0xf7 + (usize_to_be_bytes (raws.map rlp_encode_bytes).flatten.length).length) ::
          usize_to_be_bytes (raws.map rlp_encode_bytes).flatten.length ++
          (raws.map rlp_encode_bytes).flatten) 0 =
        .ok ⟨true,
          1 + (usize_to_be_bytes (raws.map rlp_encode_bytes).flatten.length).length,
          (raws.map rlp_encode_bytes).flatten.length,
          1 + (usize_to_be_bytes (raws.map rlp_encode_bytes).flatten.length).length +
            (raws.map rlp_encode_bytes).flatten.length⟩ := by
      unfold decode_rlp_item
      rw [if_neg (by simp only [List.length_cons, List.length_append]; omega)]
      rw [show (((0xf7 + (usize_to_be_bytes (raws.map rlp_encode_bytes).flatten.length).length) ::
          usize_to_be_bytes (raws.map rlp_encode_bytes).flatten.length ++
          (raws.map rlp_encode_bytes).flatten).getD 0 0) =
        0xf7 + (usize_to_be_bytes (raws.map rlp_encode_bytes).flatten.length).length by
          rw [List.cons_append, List.getD_cons_zero]]
      rw [if_neg (by omega), if_neg (by omega), if_neg (by omega), if_neg (by omega),
        if_neg (by simp only [List.length_cons, List.length_append]; omega)]
      have hslice : listSlice
          ((0xf7 + (usize_to_be_bytes (raws.map rlp_encode_bytes).flatten.length).length) ::
            usize_to_be_bytes (raws.map rlp_encode_bytes).flatten.length ++
            (raws.map rlp_encode_bytes).flatten)
          (0 + 1)
          (0 + 1 + (0xf7 +
            (usize_to_be_bytes (raws.map rlp_encode_bytes).flatten.length).length - 0xf7)) =
          usize_to_be_bytes (raws.map rlp_encode_bytes).flatten.length := by
        rw [show ((0xf7 +
            (usize_to_be_bytes (raws.map rlp_encode_bytes).flatten.length).length) ::
            usize_to_be_bytes (raws.map rlp_encode_bytes).flatten.length ++
            (raws.map rlp_encode_bytes).flatten : Bytes) =
          [0xf7 + (usize_to_be_bytes (raws.map rlp_encode_bytes).flatten.length).length] ++
            usize_to_be_bytes (raws.map rlp_encode_bytes).flatten.length ++
            (raws.map rlp_encode_bytes).flatten by simp]
        have h := listSlice_mid
          [0xf7 + (usize_to_be_bytes (raws.map rlp_encode_bytes).flatten.length).length]
          (usize_to_be_bytes (raws.map rlp_encode_bytes).flatten.length)
          ((raws.map rlp_encode_bytes).flatten)
        rw [List.length_singleton] at h
        rw [show (0 + 1 + (0xf7 +
            (usize_to_be_bytes (raws.map rlp_encode_bytes).flatten.length).length - 0xf7)) =
          1 + (usize_to_be_bytes (raws.map rlp_encode_bytes).flatten.length).length by
            omega]
        rw [show (0 + 1) = 1 by omega]
        exact h
      rw [hslice, read_be_usize_roundtrip (raws.map rlp_encode_bytes).flatten.length hpl]
      dsimp only
      rw [if_neg (by simp only [List.length_cons, List.length_append]; omega)]
      simp only [Except.ok.injEq, RlpItem.mk.injEq]
      refine ⟨?_, ?_, ?_, ?_⟩ <;> first | trivial | omega
    unfold decode_rlp_list_payload_items
    rw [hdectop]
    dsimp only
    rw [if_neg (by
      intro hcon
      rcases hcon with h | h
      · exact h rfl
      · simp only [List.length_cons, List.length_append] at h; omega)]
    have hsc := rlpItems_encode raws
      ((0xf7 + (usize_to_be_bytes (raws.map rlp_encode_bytes).flatten.length).length) ::
        usize_to_be_bytes (raws.map rlp_encode_bytes).flatten.length) []
      ((((0xf7 + (usize_to_be_bytes (raws.map rlp_encode_bytes).flatten.length).length) ::
        usize_to_be_bytes (raws.map rlp_encode_bytes).flatten.length ++
        (raws.map rlp_encode_bytes).flatten).length) + 1) hwf hlen
      (by simp only [List.length_cons, List.length_append]; omega)
    rw [List.append_nil] at hsc
    rw [show (((0xf7 +
        (usize_to_be_bytes (raws.map rlp_encode_bytes).flatten.length).length) ::
        usize_to_be_bytes (raws.map rlp_encode_bytes).flatten.length : Bytes)).length =
      1 + (usize_to_be_bytes (raws.map rlp_encode_bytes).flatten.length).length by
        simp only [List.length_cons]; omega] at hsc
    exact hsc

theorem wfBytes_append (a b : Bytes) (ha : wfBytes a) (hb : wfBytes b) :
    wfBytes (a ++ b) := by
  intro x hx
  rcases List.mem_append.mp hx with h | h
  · exact ha x h
  · exact hb x h

theorem wfBytes_cons (b : Nat) (l : Bytes) (hb : b < 256) (hl : wfBytes l) :
    wfBytes (b :: l) := by
  intro x hx
  rcases List.mem_cons.mp hx with rfl | h
  · exact hb
  · exact hl x h

theorem rlp_encode_bytes_wf (raw : Bytes) (hwf : wfBytes raw)
    (hlen : raw.length < u64Mod) : wfBytes (rlp_encode_bytes raw) := by
  simp only [rlp_encode_bytes]
  split_ifs with hA hB
  · exact hwf
  · exact wfBytes_cons _ _ (by omega) hwf
  · have hk := usize_to_be_bytes_len_le raw.length hlen
    exact wfBytes_cons _ _ (by omega)
      (wfBytes_append _ _ (usize_to_be_bytes_wf _) hwf)

theorem rlp_encode_bytes_len_le (raw : Bytes) (hlen : raw.length < u64Mod) :
    (rlp_encode_bytes raw).length ≤ raw.length + 9 := by
  simp only [rlp_encode_bytes]
  split_ifs with hA hB
  · omega
  · simp only [List.length_cons]; omega
  · have hk := usize_to_be_bytes_len_le raw.length hlen
    simp only [List.length_cons, List.length_append]
    omega

theorem rlp_encode_list_pos (items : List Bytes) : 0 < (rlp_encode_list items).length := by
  simp only [rlp_encode_list]
  split_ifs with h
  · simp
  · simp

theorem rlp_encode_list_wf (items : List Bytes) (hwf : wfBytes items.flatten)
    (hlen : items.flatten.length < u64Mod) : wfBytes (rlp_encode_list items) := by
  simp only [rlp_encode_list]
  split_ifs with h
  · exact wfBytes_cons _ _ (by omega) hwf
  · have hk := usize_to_be_bytes_len_le items.flatten.length hlen
    exact wfBytes_cons _ _ (by omega)
      (wfBytes_append _ _ (usize_to_be_bytes_wf _) hwf)

theorem rlp_encode_list_len_le (items : List Bytes)
    (hlen : items.flatten.length < u64Mod) :
    (rlp_encode_list items).length ≤ items.flatten.length + 9 := by
  simp only [rlp_encode_list]
  split_ifs with h
  · simp only [List.length_cons]; omega
  · have hk := usize_to_be_bytes_len_le items.flatten.length hlen
    simp only [List.length_cons, List.length_append]
    omega

theorem leBytes_wf (n v : Nat) : wfBytes (leBytes n v) := by
  induction n generalizing v with
  | zero => intro b hb; simp [leBytes] at hb
  | succ n ih =>
    intro b hb
    simp only [leBytes, List.mem_cons] at hb
    rcases hb with rfl | hb
    · exact Nat.mod_lt _ (by omega)
    · exact ih (v / 256) b hb

theorem keccak256_length (msg : Bytes) : (keccak256 msg).length = 32 := by
  simp only [keccak256]
  rw [show List.range 4 = [0, 1, 2, 3] from rfl]
  simp [leBytes_length]

theorem keccak256_wf (msg : Bytes) : wfBytes (keccak256 msg) := by
  simp only [keccak256]
  intro b hb
  rw [show List.range 4 = [0, 1, 2, 3] from rfl] at hb
  simp only [List.flatMap_cons, List.flatMap_nil, List.append_nil, List.mem_append] at hb
  rcases hb with h | h | h | h
  all_goals exact leBytes_wf 8 _ b h

theorem hash_to_nibbles_length (h : Bytes) :
    (hash_to_nibbles h).length = 2 * h.length := by
  induction h with
  | nil => simp [hash_to_nibbles]
  | cons b rest ih =>
    simp only [hash_to_nibbles, List.flatMap_cons, List.length_append, List.length_cons,
      List.length_nil] at ih ⊢
    omega

theorem hash_to_nibbles_lt (h : Bytes) (hwf : wfBytes h) :
    ∀ x ∈ hash_to_nibbles h, x < 16 := by
  intro x hx
  simp only [hash_to_nibbles, List.mem_flatMap] at hx
  obtain ⟨b, hb, hxb⟩ := hx
  have hb256 := hwf b hb
  simp only [List.mem_cons, List.mem_singleton] at hxb
  rcases hxb with rfl | rfl | hfalse
  · omega
  · omega
  · simp at hfalse

theorem nibblePairs_wf_aux (n : Nat) :
    ∀ l : List Nat, l.length ≤ n → wfBytes (nibblePairs l) := by
  induction n with
  | zero =>
    intro l hlen
    have hnil : l = [] := List.eq_nil_of_length_eq_zero (by omega)
    subst hnil
    intro b hb
    simp [nibblePairs] at hb
  | succ n ih =>
    intro l hlen
    rcases l with _ | ⟨hi, rest1⟩
    · intro b hb; simp [nibblePairs] at hb
    · rcases rest1 with _ | ⟨lo, rest⟩
      · intro b hb; simp [nibblePairs] at hb
      · intro b hb
        simp only [nibblePairs, List.mem_cons] at hb
        rcases hb with rfl | hb
        · have h1 : hi % 16 < 16 := Nat.mod_lt _ (by omega)
          have h2 : lo % 16 < 16 := Nat.mod_lt _ (by omega)
          omega
        · exact ih rest (by simp only [List.length_cons] at hlen; omega) b hb

theorem nibblePairs_wf (l : List Nat) : wfBytes (nibblePairs l) :=
  nibblePairs_wf_aux l.length l (Nat.le_refl _)

theorem nibblePairs_length_le_aux (n : Nat) :
    ∀ l : List Nat, l.length ≤ n → (nibblePairs l).length ≤ l.length := by
  induction n with
  | zero =>
    intro l hlen
    have hnil : l = [] := List.eq_nil_of_length_eq_zero (by omega)
    subst hnil
    simp [nibblePairs]
  | succ n ih =>
    intro l hlen
    rcases l with _ | ⟨hi, rest1⟩
    · simp [nibblePairs]
    · rcases rest1 with _ | ⟨lo, rest⟩
      · simp [nibblePairs]
      · have hre := ih rest (by simp only [List.length_cons] at hlen; omega)
        simp only [nibblePairs, List.length_cons]
        omega

theorem nibblePairs_length_le (l : List Nat) : (nibblePairs l).length ≤ l.length :=
  nibblePairs_length_le_aux l.length l (Nat.le_refl _)

/-- Hex-prefix unpacking is inverse to packing on even nibble runs. -/
theorem unpair_pairs (n : Nat) :
    ∀ nibs : List Nat, nibs.length ≤ n → (∀ x ∈ nibs, x < 16) → nibs.length % 2 = 0 →
      (nibblePairs nibs).flatMap (fun b => [b / 16, b % 16]) = nibs := by
  induction n with
  | zero =>
    intro nibs hlen _ _
    have hnil : nibs = [] := List.eq_nil_of_length_eq_zero (by omega)
    subst hnil
    simp [nibblePairs]
  | succ n ih =>
    intro nibs hlen h16 he
    rcases nibs with _ | ⟨hi, rest1⟩
    · simp [nibblePairs]
    · rcases rest1 with _ | ⟨lo, rest⟩
      · simp at he
      · have hhi : hi < 16 := h16 hi (by simp)
        have hlo : lo < 16 := h16 lo (by simp)
        have hre := ih rest (by simp only [List.length_cons] at hlen; omega)
          (fun x hx => h16 x (by simp [hx]))
          (by simp only [List.length_cons] at he; omega)
        simp only [nibblePairs, List.flatMap_cons, hre]
        rw [show ((hi % 16) * 16 + lo % 16) / 16 = hi by omega,
          show ((hi % 16) * 16 + lo % 16) % 16 = lo by omega]
        simp

/-- Decoding a compact leaf path built from an even nibble run recovers the
    leaf flag and the nibbles. -/
theorem decode_compact_encode_even (nibs : List Nat) (h16 : ∀ x ∈ nibs, x < 16)
    (he : nibs.length % 2 = 0) :
    decode_compact_nibbles (nibbles_to_compact_path nibs true) = .ok (true, nibs) := by
  have hodd : ¬(nibs.length % 2 = 1) := by omega
  have henc : nibbles_to_compact_path nibs true = 32 :: nibblePairs nibs := by
    simp [nibbles_to_compact_path, hodd]
  rw [henc]
  simp only [decode_compact_nibbles]
  rw [if_neg (by norm_num)]
  rw [if_neg (by decide)]
  rw [List.nil_append, unpair_pairs nibs.length nibs (Nat.le_refl _) h16 he]
  rw [show ((32 / 16 &&& 2 != 0) : Bool) = true from by decide]

/-- C1: for a single-leaf account proof — target address `addr`, key hash
    `keccak256 addr`, one leaf node
    `rlp_list[compactEncode(all 64 key nibbles, leaf), rlp(account)]` with a
    4-field account list `(nonce, balance, storageRoot, codeHash)` whose balance
    payload is at most 32 bytes, and state root `keccak256 leaf` — the verifier
    succeeds and returns the balance payload right-aligned into a 32-byte
    left-zero-padded big-endian buffer. -/
theorem C1_single_leaf_account_proof
    (addr nonce balance sroot chash : Bytes)
    (haddr : addr.length = 20)
    (hwn : wfBytes nonce) (hwb : wfBytes balance) (hws : wfBytes sroot)
    (hwc : wfBytes chash)
    (hbal : balance.length ≤ 32)
    (hn : nonce.length < 2 ^ 32) (hs : sroot.length < 2 ^ 32)
    (hc : chash.length < 2 ^ 32) :
    verify_account_proof_and_get_balance
      (keccak256 (rlp_encode_list
        ([nibbles_to_compact_path (hash_to_nibbles (keccak256 addr)) true,
          rlp_encode_list ([nonce, balance, sroot, chash].map rlp_encode_bytes)].map
          rlp_encode_bytes)))
      addr
      [rlp_encode_list
        ([nibbles_to_compact_path (hash_to_nibbles (keccak256 addr)) true,
          rlp_encode_list ([nonce, balance, sroot, chash].map rlp_encode_bytes)].map
          rlp_encode_bytes)] =
      .ok (List.replicate (32 - balance.length) 0 ++ balance) := by
  unfold verify_account_proof_and_get_balance
  have hkw : wfBytes (keccak256 addr) := keccak256_wf addr
  have hkl : (keccak256 addr).length = 32 := keccak256_length addr
  generalize hgen : keccak256 addr = kh
  rw [hgen] at hkw hkl
  have hnl : (hash_to_nibbles kh).length = 64 := by
    simp [hash_to_nibbles_length, hkl]
  have hn16 : ∀ x ∈ hash_to_nibbles kh, x < 16 := hash_to_nibbles_lt kh hkw
  generalize hgen2 : hash_to_nibbles kh = nibs
  rw [hgen2] at hnl hn16
  have hp32 : (2 : Nat) ^ 32 = 4294967296 := by norm_num
  have hu64 : u64Mod = 18446744073709551616 := by unfold u64Mod; norm_num
  rw [hp32] at hn hs hc
  have hlen_n : nonce.length < u64Mod := by omega
  have hlen_b : balance.length < u64Mod := by omega
  have hlen_s : sroot.length < u64Mod := by omega
  have hlen_c : chash.length < u64Mod := by omega
  have henc_n := rlp_encode_bytes_len_le nonce hlen_n
  have henc_b := rlp_encode_bytes_len_le balance hlen_b
  have henc_s := rlp_encode_bytes_len_le sroot hlen_s
  have henc_c := rlp_encode_bytes_len_le chash hlen_c
  have hflin_le : ([nonce, balance, sroot, chash].map rlp_encode_bytes).flatten.length ≤
      nonce.length + balance.length + sroot.length + chash.length + 36 := by
    simp only [List.map_cons, List.map_nil, List.flatten_cons, List.flatten_nil,
      List.append_nil, List.length_append]
    omega
  have hflin : ([nonce, balance, sroot, chash].map rlp_encode_bytes).flatten.length <
      u64Mod := by omega
  have hwfin : wfBytes ([nonce, balance, sroot, chash].map rlp_encode_bytes).flatten := by
    simp only [List.map_cons, List.map_nil, List.flatten_cons, List.flatten_nil,
      List.append_nil]
    exact wfBytes_append _ _ (rlp_encode_bytes_wf nonce hwn hlen_n)
      (wfBytes_append _ _ (rlp_encode_bytes_wf balance hwb hlen_b)
        (wfBytes_append _ _ (rlp_encode_bytes_wf sroot hws hlen_s)
          (rlp_encode_bytes_wf chash hwc hlen_c)))
  have hacc_wf : wfBytes (rlp_encode_list ([nonce, balance, sroot, chash].map
      rlp_encode_bytes)) := rlp_encode_list_wf _ hwfin hflin
  have hacc_le := rlp_encode_list_len_le ([nonce, balance, sroot, chash].map
    rlp_encode_bytes) hflin
  have hacc_len : (rlp_encode_list ([nonce, balance, sroot, chash].map
      rlp_encode_bytes)).length < u64Mod := by omega
  have hodd : ¬(nibs.length % 2 = 1) := by omega
  have hceq : nibbles_to_compact_path nibs true = 32 :: nibblePairs nibs := by
    simp [nibbles_to_compact_path, hodd]
  have hclen : (nibbles_to_compact_path nibs true).length ≤ 65 := by
    rw [hceq]
    simp only [List.length_cons]
    have := nibblePairs_length_le nibs
    omega
  have hcwf : wfBytes (nibbles_to_compact_path nibs true) := by
    rw [hceq]
    exact wfBytes_cons _ _ (by omega) (nibblePairs_wf nibs)
  have hcdec : decode_compact_nibbles (nibbles_to_compact_path nibs true) =
      .ok (true, nibs) := decode_compact_encode_even nibs hn16 (by omega)
  have hen_c := rlp_encode_bytes_len_le (nibbles_to_compact_path nibs true) (by omega)
  have hen_a := rlp_encode_bytes_len_le
    (rlp_encode_list ([nonce, balance, sroot, chash].map rlp_encode_bytes)) hacc_len
  have hdec_acc := decode_rlp_list_encode [nonce, balance, sroot, chash]
    (by intro r hr
        simp at hr
        rcases hr with rfl | rfl | rfl | rfl
        · exact hwn
        · exact hwb
        · exact hws
        · exact hwc)
    (by intro r hr
        simp at hr
        rcases hr with rfl | rfl | rfl | rfl
        · exact hlen_n
        · exact hlen_b
        · exact hlen_s
        · exact hlen_c)
    hflin
  have hdec_out := decode_rlp_list_encode
    [nibbles_to_compact_path nibs true,
      rlp_encode_list ([nonce, balance, sroot, chash].map rlp_encode_bytes)]
    (by intro r hr
        simp at hr
        rcases hr with rfl | rfl
        · exact hcwf
        · exact hacc_wf)
    (by intro r hr
        simp at hr
        rcases hr with rfl | rfl
        · omega
        · exact hacc_len)
    (by have hen_a2 := hen_a
        have hacc_le2 := hacc_le
        have hflin_le2 := hflin_le
        simp only [List.map_cons, List.map_nil] at hen_a2 hacc_le2 hflin_le2
        simp only [List.map_cons, List.map_nil, List.flatten_cons, List.flatten_nil,
          List.append_nil, List.length_append]
        omega)
  simp only [List.length_singleton]
  simp only [verifyLoop]
  simp only [nodeRefCheck]
  simp only [if_true]
  rw [hdec_out]
  dsimp only
  rw [if_neg (by simp), if_pos (by simp)]
  rw [show (List.getD [nibbles_to_compact_path nibs true,
    rlp_encode_list ([nonce, balance, sroot, chash].map rlp_encode_bytes)] 0 []) =
    nibbles_to_compact_path nibs true from rfl]
  rw [hcdec]
  dsimp only
  rw [if_neg (by omega)]
  rw [if_neg (by rw [Nat.zero_add, listSlice_all]; exact fun h => h rfl)]
  rw [if_pos rfl]
  rw [if_neg (by omega)]
  rw [show (List.getD [nibbles_to_compact_path nibs true,
    rlp_encode_list ([nonce, balance, sroot, chash].map rlp_encode_bytes)] 1 []) =
    rlp_encode_list ([nonce, balance, sroot, chash].map rlp_encode_bytes) from rfl]
  rw [if_neg (by
    intro hnil
    have hpos := rlp_encode_list_pos ([nonce, balance, sroot, chash].map rlp_encode_bytes)
    rw [hnil] at hpos
    simp at hpos)]
  rw [if_neg (by omega)]
  dsimp only
  unfold decode_account_balance
  rw [hdec_acc]
  dsimp only
  rw [if_neg (by simp)]
  rw [show (List.getD [nonce, balance, sroot, chash] 1 []) = balance from rfl]
  rw [if_neg (by omega)]

/-- C1 witness: the S1 fixture — address of twenty `0x11` bytes, account
    `(0, 0x01_02_03_04_05, 0x22·32, 0x33·32)`, single leaf node hashing to the
    state root — yields the 32-byte balance `0x00…00_01_02_03_04_05`. -/
theorem C1_witness :
    (s1Address.length = 20 ∧ wfBytes ([1, 2, 3, 4, 5] : Bytes) ∧
      ([1, 2, 3, 4, 5] : Bytes).length ≤ 32) ∧
    verify_account_proof_and_get_balance (keccak256 s1LeafNode) s1Address [s1LeafNode] =
      .ok (List.replicate 27 0 ++ [1, 2, 3, 4, 5]) := by
  refine ⟨⟨by decide, by decide, by decide⟩, ?_⟩
  have h := C1_single_leaf_account_proof s1Address [] [1, 2, 3, 4, 5]
    (List.replicate 32 0x22) (List.replicate 32 0x33)
    (by decide) (by decide) (by decide) (by decide) (by decide) (by decide)
    (by decide) (by decide) (by decide)
  simpa [s1LeafNode, s1AccountRlp] using h

end Shadow
